import Mathlib

/-!
# The `yum` WebAssembly emitter (`compiler/emitter/code.go`)

A shallow embedding of the emitter: byte buffers are lists of naturals, the
emitter object is an explicit record threaded through every method, Go maps
are association lists with an explicit iteration order, and an error, a nil
dereference and a normal return are the three outcomes of a call.
-/

namespace Yum

/-! ## Bytes and machine integers -/

/-- A `bytes.Buffer` (and a `[]byte`): the bytes written so far, oldest first. -/
abbrev Bytes := List Nat

/-- The Go conversion `byte(n)` of a non-negative `int`. -/
def byte (n : Nat) : Nat := n % 256

/-- The Go conversion `byte(v)` of a signed integer (two's complement low byte). -/
def byteOfInt (v : Int) : Nat := (v % 256).toNat

/-- The Go conversion `int32(n)` of an integer: wrap into `[-2^31, 2^31)`. -/
def int32 (n : Int) : Int := (n + 2147483648) % 4294967296 - 2147483648

/-- A `float64`, represented by its IEEE-754 binary64 bit pattern. -/
abbrev Float64 := Nat

/-- The integer part (truncation towards zero) of a finite `float64`. -/
def float64Trunc (f : Float64) : Int :=
  let sign := f / 2 ^ 63 % 2
  let ex := f / 2 ^ 52 % 2048
  let frac := f % 2 ^ 52
  let m := if ex = 0 then frac else frac + 2 ^ 52
  let e := if ex = 0 then 1 else ex
  let mag : Nat := if 1075 ≤ e then m * 2 ^ (e - 1075) else m / 2 ^ (1075 - e)
  if sign = 1 then -(mag : Int) else (mag : Int)

/-- The Go conversion `int32(f)` of a `float64`: the fraction is discarded.
For NaN, the infinities and values outside the `int32` range Go leaves the
result to the implementation; the amd64 result (`-2^31`) is used. -/
def int32OfFloat64 (f : Float64) : Int :=
  let t := float64Trunc f
  if f / 2 ^ 52 % 2048 = 2047 then -2147483648
  else if -2147483648 ≤ t ∧ t < 2147483648 then t else -2147483648

/-- The bytes of a Go string: `[]byte(s)`, its UTF-8 encoding. -/
def goBytes (s : String) : Bytes :=
  s.data.flatMap (fun c => (String.utf8EncodeChar c).map UInt8.toNat)

/-- The Go `len(s)` of a string: its number of bytes. -/
def strLen (s : String) : Nat := (goBytes s).length

/-- `binary.LittleEndian.Uint32` of a four-byte slice. -/
def littleEndianUint32 (d : Bytes) : Nat :=
  d.getD 0 0 + 256 * d.getD 1 0 + 65536 * d.getD 2 0 + 16777216 * d.getD 3 0

/-! ## Helpers of the repository that are not in `code.go` -/

/-- Signed LEB128 digits of `v`, at most `fuel` of them. -/
def sleb128 : Nat → Int → Bytes
  | 0, _ => []
  | fuel + 1, v =>
    let b := (v % 128).toNat
    let rest := v / 128
    if (rest = 0 ∧ b < 64) ∨ (rest = -1 ∧ 64 ≤ b) then [b]
    else (b + 128) :: sleb128 fuel rest

/-- Modelled from the spec: `encodeSleb128(b, v)` is not in `code.go`; the spec
calls it the variable-length signed integer encoding of the binary primitive
encoder. It appends the signed LEB128 form of the `int32` value `v` (never
more than five bytes) to the buffer. -/
def encodeSleb128 (b : Bytes) (v : Int) : Bytes := b ++ sleb128 5 v

/-- Modelled from the spec: `float64ToByte(f)` is not in `code.go`; the spec
calls it the fixed-width floating point encoding. It yields the eight bytes of
the bit pattern, least significant first. -/
def float64ToByte (f : Float64) : Bytes :=
  (List.range 8).map (fun i => f / 256 ^ i % 256)

/-- The constants of package `op`, which is not in `code.go`: value types,
instruction opcodes and section identifiers. Every definition takes the table
as a parameter. -/
structure Op where
  F64 : Nat
  I32 : Nat
  F64_CONST : Nat
  I32_CONST : Nat
  F64_ADD : Nat
  F64_SUB : Nat
  F64_MUL : Nat
  F64_DIV : Nat
  I32_ADD : Nat
  I32_STORE : Nat
  GET_LOCAL : Nat
  GET_GLOBAL : Nat
  SET_GLOBAL : Nat
  CALL : Nat
  DROP : Nat
  END : Nat
  SECTION_TYPES : Nat
  SECTION_IMPORTS : Nat
  SECTION_FUNCS : Nat
  SECTION_MEMORY : Nat
  SECTION_GLOBALS : Nat
  SECTION_EXPORTS : Nat
  SECTION_FUNCS_BODY : Nat
  deriving DecidableEq, Repr

/-- Modelled from the spec: the section identifiers are the ones the spec lists
(types 1, imports 2, functions 3, memory 5, globals 6, exports 7, code 10); the
value types and opcodes are those of the WebAssembly binary format whose magic
number the emitter writes. -/
def wasmOp : Op where
  F64 := 0x7c
  I32 := 0x7f
  F64_CONST := 0x44
  I32_CONST := 0x41
  F64_ADD := 0xa0
  F64_SUB := 0xa1
  F64_MUL := 0xa2
  F64_DIV := 0xa3
  I32_ADD := 0x6a
  I32_STORE := 0x36
  GET_LOCAL := 0x20
  GET_GLOBAL := 0x23
  SET_GLOBAL := 0x24
  CALL := 0x10
  DROP := 0x1a
  END := 0x0b
  SECTION_TYPES := 1
  SECTION_IMPORTS := 2
  SECTION_FUNCS := 3
  SECTION_MEMORY := 5
  SECTION_GLOBALS := 6
  SECTION_EXPORTS := 7
  SECTION_FUNCS_BODY := 10

/-! ## Go maps -/

/-- A Go `map[string]α`: the entries, with pairwise distinct keys. The order
of the list is not observable; iteration goes through `Env.range`. -/
abbrev GoMap (α : Type) := List (String × α)

/-- The lookup `m[k]` with its `ok` flag. -/
def GoMap.get? {α : Type} (m : GoMap α) (k : String) : Option α :=
  match m with
  | [] => none
  | (k', v) :: rest => if k' = k then some v else GoMap.get? rest k

/-- The assignment `m[k] = v`: overwrite the entry of `k` or add one. -/
def GoMap.set {α : Type} (m : GoMap α) (k : String) (v : α) : GoMap α :=
  match m with
  | [] => [(k, v)]
  | (k', v') :: rest =>
    if k' = k then (k, v) :: rest else (k', v') :: GoMap.set rest k v

/-! ## The AST (package `ast`, as the emitter reads it) -/

/-- The `*ast.Literal` nodes: a number, a string, an identifier, or an
argument list. -/
inductive Literal where
  | mk (Num : Option Float64) (Str : Option String) (Reference : Option String)
      (Params : List Literal)

/-- Field `Num`. -/
def Literal.Num : Literal → Option Float64
  | .mk n _ _ _ => n

/-- Field `Str`. -/
def Literal.Str : Literal → Option String
  | .mk _ s _ _ => s

/-- Field `Reference`. -/
def Literal.Reference : Literal → Option String
  | .mk _ _ r _ => r

/-- Field `Params`. -/
def Literal.Params : Literal → List Literal
  | .mk _ _ _ ps => ps

/-- A value of type `*ast.Expression`: the nil pointer, or a node with an
optional operator, an optional left literal and a right pointer. -/
inductive Expression where
  | nil
  | node (Operator : Option String) (Left : Option Literal) (Right : Expression)

/-- The `ast.Block` statements of a body; `Exp` is a `*ast.Expression`. -/
structure Block where
  Exp : Expression

/-- The type of a declared parameter (`param.Type`). -/
structure TypeRef where
  Name : String

/-- A declared parameter (`Typ` is the Go field `Type`). -/
structure Param where
  Name : String
  Typ : TypeRef

/-- An extern function declaration. -/
structure ExternFunc where
  Name : String
  Parameters : List Param
  ReturnType : String

/-- A function definition. -/
structure Fun where
  Name : String
  Parameters : List Param
  ReturnTypes : List String
  Body : List Block

/-- A module: a name, its extern declarations and its definitions. -/
structure Module where
  Name : String
  ExternFuncs : List ExternFunc
  Funs : List Fun

/-- The whole tree. -/
structure Ast where
  Modules : List Module

/-! ## The emitter state -/

/-- The `FuncParam` records (`Typ` is the Go field `Type`). -/
structure FuncParam where
  Index : Nat
  Name : String
  Typ : String
  ptr : Nat
  deriving DecidableEq, Repr

/-- The `FuncData` records of the registry. -/
structure FuncData where
  Index : Nat
  Name : String
  Params : GoMap FuncParam
  ReturnType : String
  deriving DecidableEq, Repr

/-- The `Emitter` object. -/
structure Emitter where
  TypesSection : Bytes
  ImportsSection : Bytes
  FuncsSection : Bytes
  MemorySection : Bytes
  GlobalsSection : Bytes
  ExportsSection : Bytes
  FuncsBodySection : Bytes
  Tree : Ast
  funcs : GoMap FuncData
  externFuncsCount : Nat
  funcsCount : Nat
  globalsCount : Nat
  initial : Bool

/-- The constructor `NewEmitter`. -/
def NewEmitter (tree : Ast) : Emitter where
  TypesSection := []
  ImportsSection := []
  FuncsSection := []
  MemorySection := []
  GlobalsSection := []
  ExportsSection := []
  FuncsBodySection := []
  Tree := tree
  funcs := []
  externFuncsCount := 0
  funcsCount := 0
  globalsCount := 0
  initial := false

/-- What is fixed outside `code.go`: the constants of package `op`, and the
order in which a `range` statement visits the entries of a parameter table,
which Go leaves unspecified (any rearrangement of the entries). -/
structure Env where
  op : Op
  range : GoMap FuncParam → GoMap FuncParam
  range_perm : ∀ m, (range m).Perm m

/-- The errors built with `fmt.Errorf`, one constructor per call site. -/
inductive EmitError where
  /-- line 72: "func'f' parameter 'p' type 't' does not exist" -/
  | paramType (fn param typ : String)
  /-- line 79: "func'f' return type 't' does not exist" -/
  | returnType (fn typ : String)
  /-- line 157: "func 'f' parameter 'p' does not exist" -/
  | unknownParam (fn param : String)
  /-- line 165: "func 'f' trying to call non-existing func 'g'" -/
  | unknownFunc (fn callee : String)
  /-- line 168: "func 'f' trying to call function 'g' with extra parameters" -/
  | extraParams (fn callee : String)
  /-- line 184: "func'f' trying to call 'g' with non-existing variable v" -/
  | unknownVariable (fn callee var : String)
  /-- line 222: "func'f' parameter 'p' does not exist" -/
  | unknownRightParam (fn param : String)
  /-- line 260: "func 'f' operation 'o' is invalid" -/
  | invalidOperation (fn operation : String)
  /-- lines 363 and 388: "Failed to emitTypes ..." -/
  | failedEmitTypes (cause : EmitError)
  /-- line 394: "Failed to EmitFuncBody ..." -/
  | failedEmitFuncBody (cause : EmitError)
  deriving DecidableEq, Repr

/-- How a call ends: it returns a nil error, it returns an error, or it
dereferences a nil pointer (a run-time panic). -/
inductive Status where
  | ok
  | error (err : EmitError)
  | panic
  deriving DecidableEq, Repr

/-- The state a method of the emitter leaves behind: how it ended, the
emitter, and the buffer it was handed. -/
structure Res where
  status : Status
  e : Emitter
  buffer : Bytes

/-- The table `typeMap`. -/
def typeMap (op : Op) (t : String) : Option Nat :=
  if t = "num" then some op.F64
  else if t = "i32" then some op.I32
  else none

/-! ## Section builders -/

/-- The loop of `EmitTypes` over the parameter table (lines 69-75), on the
entries in the order the `range` statement visits them. -/
def emitParamTypes (op : Op) (fn : FuncData) : List (String × FuncParam) → Bytes → Status × Bytes
  | [], ts => (.ok, ts)
  | (_, param) :: rest, ts =>
    match typeMap op param.Typ with
    | none => (.error (.paramType fn.Name param.Name param.Typ), ts)
    | some t => emitParamTypes op fn rest (ts ++ [t])

/-- The method `EmitTypes` (lines 65-88). A name that is not registered makes
`fun` nil, and `len(fun.Params)` dereferences it. -/
def EmitTypes (env : Env) (e : Emitter) (name : String) : Status × Emitter :=
  match e.funcs.get? name with
  | none => (.panic, { e with TypesSection := e.TypesSection ++ [0x60] })
  | some fn =>
    let ts := e.TypesSection ++ [0x60] ++ [byte fn.Params.length]
    match emitParamTypes env.op fn (env.range fn.Params) ts with
    | (.ok, ts) =>
      if fn.ReturnType ≠ "" then
        match typeMap env.op fn.ReturnType with
        | none => (.error (.returnType fn.Name fn.ReturnType), { e with TypesSection := ts })
        | some t => (.ok, { e with TypesSection := ts ++ [0x01] ++ [t] })
      else
        (.ok, { e with TypesSection := ts ++ [0x00] })
    | (st, ts) => (st, { e with TypesSection := ts })

/-- The method `EmitImports` (lines 90-97). -/
def EmitImports (e : Emitter) (moduleName funcName : String) (typeIndex : Nat) : Emitter :=
  { e with ImportsSection :=
      e.ImportsSection ++ [byte (strLen moduleName)] ++ goBytes moduleName
        ++ [byte (strLen funcName)] ++ goBytes funcName ++ [0x00] ++ [byte typeIndex] }

/-- The method `EmitFuncs` (lines 99-105). -/
def EmitFuncs (e : Emitter) (name : String) (typeIndex : Nat) : Emitter :=
  { e with
    FuncsSection := e.FuncsSection ++ [byte typeIndex]
    ExportsSection :=
      e.ExportsSection ++ [byte (strLen name)] ++ goBytes name ++ [0x00] ++ [byte typeIndex] }

/-- The method `EmitExports` (lines 107-109). -/
def EmitExports (e : Emitter) (typeIndex : Nat) : Emitter :=
  { e with FuncsSection := e.FuncsSection ++ [byte typeIndex] }

/-- The method `EmitMemory` (lines 329-331). -/
def EmitMemory (e : Emitter) : Emitter :=
  { e with MemorySection := e.MemorySection ++ [0x00, 0x01] }

/-- The method `EmitRuntime` (lines 333-337). -/
def EmitRuntime (env : Env) (e : Emitter) : Emitter :=
  { e with
    GlobalsSection :=
      e.GlobalsSection ++ [env.op.I32, 0x01, env.op.I32_CONST, 0x00, env.op.END]
    globalsCount := 1 }

/-! ## Strings in linear memory -/

/-- The method `emitOperation` (lines 249-263): the buffer and the error. -/
def emitOperation (env : Env) (buffer : Bytes) (funcName operation : String) : Status × Bytes :=
  if operation = "+" then (.ok, buffer ++ [env.op.F64_ADD])
  else if operation = "-" then (.ok, buffer ++ [env.op.F64_SUB])
  else if operation = "*" then (.ok, buffer ++ [env.op.F64_MUL])
  else if operation = "/" then (.ok, buffer ++ [env.op.F64_DIV])
  else (.error (.invalidOperation funcName operation), buffer)

/-- The method `emitHeapNext` (lines 265-283). -/
def emitHeapNext (env : Env) (e : Emitter) (b : Bytes) : Emitter × Bytes :=
  let size := if e.initial = false then 0 else 4
  let e := if e.initial = false then { e with initial := true } else e
  (e, b ++ [env.op.GET_GLOBAL, 0x00, env.op.I32_CONST, byte size, env.op.I32_ADD,
            env.op.SET_GLOBAL, 0x00, env.op.GET_GLOBAL, 0x00])

/-- The method `emitStore` (lines 285-295); `v` is an `int32`. -/
def emitStore (env : Env) (e : Emitter) (b : Bytes) (v : Int) : Emitter × Bytes :=
  let (e, b) := emitHeapNext env e b
  let b := b ++ [env.op.I32_CONST]
  let b := encodeSleb128 b v
  (e, b ++ [env.op.I32_STORE, 0x02, 0x00])

/-- The padding of `emitString` (lines 303-312). -/
def padString (data : Bytes) : Bytes :=
  let data := if data.length % 4 = 1 then data ++ [0] else data
  let data := if data.length % 4 = 2 then data ++ [0] else data
  let data := if data.length % 4 = 3 then data ++ [10] else data
  data

/-- The loop of `emitString` (lines 317-324) over the indices `i` of `data`. -/
def emitStringWords (env : Env) (data : Bytes) : List Nat → Emitter → Bytes → Emitter × Bytes
  | [], e, b => (e, b)
  | i :: rest, e, b =>
    let index := i + 1
    if index % 4 = 0 then
      let startData := index - 4
      let remainingData := (data.take index).drop startData
      let (e, b) := emitStore env e b (int32 (littleEndianUint32 remainingData))
      emitStringWords env data rest e b
    else
      emitStringWords env data rest e b

/-- The method `emitString` (lines 302-327): the emitter, the buffer and the
returned pointer. -/
def emitString (env : Env) (e : Emitter) (b : Bytes) (str : String) : Emitter × Bytes × Nat :=
  let data := padString (goBytes str)
  let (e, b) := emitStore env e b 8
  let (e, b) := emitStore env e b (int32 data.length)
  let (e, b) := emitStringWords env data (List.range data.length) e b
  (e, b, 0)

/-! ## Expressions -/

/-- The pointer `r` as `emitExpression` reads it: `none` for nil, otherwise the
fields `r.Operator` and `r.Left`. -/
abbrev RightView := Option (Option String × Option Literal)

/-- The fields of a `*ast.Expression` other than `Right`. -/
def Expression.view : Expression → RightView
  | .nil => none
  | .node o l _ => some (o, l)

/-- The literal `r.Left` when `r != nil && r.Left != nil`. -/
def RightView.left (r : RightView) : Option Literal :=
  match r with
  | some (_, some lit) => some lit
  | _ => none

/-- Lines 134-137: a numeric left literal. -/
def emitLeftNum (env : Env) (buffer : Bytes) (l : Option Literal) : Bytes :=
  match l.bind Literal.Num with
  | some n => buffer ++ [env.op.F64_CONST] ++ float64ToByte n
  | none => buffer

/-- Lines 148-152: a numeric right literal. `*operation` dereferences the
operator; the error of `emitOperation` is dropped. -/
def emitRightNum (env : Env) (e : Emitter) (buffer : Bytes) (funcName : String)
    (operation : Option String) (r : RightView) : Res :=
  match r.left.bind Literal.Num with
  | some n =>
    let buffer := buffer ++ [env.op.F64_CONST] ++ float64ToByte n
    match operation with
    | none => ⟨.panic, e, buffer⟩
    | some o => ⟨.ok, e, (emitOperation env buffer funcName o).2⟩
  | none => ⟨.ok, e, buffer⟩

/-- The first loop over the arguments (lines 170-179): a string argument is
stored and the pointer is kept in the callee's parameter record. -/
def emitCallStrings (env : Env) (callee : String) : List Literal → Nat → Emitter → Bytes → Emitter × Bytes
  | [], _, e, b => (e, b)
  | v :: rest, i, e, b =>
    match e.funcs.get? callee with
    | none => emitCallStrings env callee rest (i + 1) e b
    | some callFunc =>
      match (env.range callFunc.Params).find? (fun kp => decide (i = kp.2.Index)), v.Str with
      | some (k, p), some str =>
        let (e, b, ptr) := emitString env e b str
        let callFunc := { callFunc with Params := callFunc.Params.set k { p with ptr := ptr } }
        emitCallStrings env callee rest (i + 1) { e with funcs := e.funcs.set callee callFunc } b
      | _, _ => emitCallStrings env callee rest (i + 1) e b

/-- Lines 181-188: an identifier argument is read from the caller's locals. -/
def emitArgReference (env : Env) (funcName : String) (callFunc : FuncData) (e : Emitter)
    (b : Bytes) (v : Literal) : Res :=
  match v.Reference with
  | none => ⟨.ok, e, b⟩
  | some ref =>
    match e.funcs.get? funcName with
    | none => ⟨.panic, e, b⟩
    | some caller =>
      match caller.Params.get? ref with
      | none => ⟨.error (.unknownVariable funcName callFunc.Name ref), e, b⟩
      | some vref => ⟨.ok, e, b ++ [env.op.GET_LOCAL] ++ [byte vref.Index]⟩

/-- Lines 189-207: a numeric or string argument, by the callee's parameter
with index `i`. -/
def emitArgConst (env : Env) (callFunc : FuncData) (i : Nat) (b : Bytes) (v : Literal) : Bytes :=
  match (env.range callFunc.Params).find? (fun kp => decide (i = kp.2.Index)) with
  | none => b
  | some (_, p) =>
    let b :=
      match v.Num with
      | some n =>
        if p.Typ = "i32" then b ++ [env.op.I32_CONST] ++ [byteOfInt (int32OfFloat64 n)]
        else b ++ [env.op.F64_CONST] ++ float64ToByte n
      | none => b
    match v.Str with
    | some _ => b ++ [env.op.I32_CONST] ++ [byte p.ptr]
    | none => b

/-- The second loop over the arguments (lines 180-208). -/
def emitCallArgs (env : Env) (funcName : String) (callFunc : FuncData) :
    List Literal → Nat → Emitter → Bytes → Res
  | [], _, e, b => ⟨.ok, e, b⟩
  | v :: rest, i, e, b =>
    match emitArgReference env funcName callFunc e b v with
    | ⟨.ok, e, b⟩ => emitCallArgs env funcName callFunc rest (i + 1) e (emitArgConst env callFunc i b v)
    | res => res

/-- Lines 162-216: a call. `recur` is the call
`e.emitExpression(buffer, funcName, r.Operator, nil, r.Right)`. -/
def emitCall (env : Env) (recur : Emitter → Bytes → Res) (e : Emitter) (buffer : Bytes)
    (funcName callee : String) (r : RightView) : Res :=
  match e.funcs.get? callee with
  | none => ⟨.error (.unknownFunc funcName callee), e, buffer⟩
  | some callFunc =>
    match r with
    | none => ⟨.panic, e, buffer⟩
    | some (_, none) => ⟨.panic, e, buffer⟩
    | some (rop, some rl) =>
      if callFunc.Params.length ≠ rl.Params.length then
        ⟨.error (.extraParams funcName callFunc.Name), e, buffer⟩
      else
        let (e, buffer) := emitCallStrings env callee rl.Params 0 e buffer
        match e.funcs.get? callee with
        | none => ⟨.panic, e, buffer⟩
        | some callFunc =>
          match emitCallArgs env funcName callFunc rl.Params 0 e buffer with
          | ⟨.ok, e, buffer⟩ =>
            let buffer := buffer ++ [env.op.CALL] ++ [byte callFunc.Index]
            match rop with
            | some _ => recur e buffer
            | none => ⟨.ok, e, buffer⟩
          | res => res

/-- Lines 153-218: an identifier left literal, an operand when there is an
operator and a callee when there is none. -/
def emitLeftReference (env : Env) (recur : Emitter → Bytes → Res) (e : Emitter) (buffer : Bytes)
    (funcName : String) (operation : Option String) (l : Option Literal) (r : RightView) : Res :=
  match l.bind Literal.Reference with
  | none => ⟨.ok, e, buffer⟩
  | some ref =>
    match operation with
    | some _ =>
      match e.funcs.get? funcName with
      | none => ⟨.panic, e, buffer⟩
      | some fn =>
        match fn.Params.get? ref with
        | none => ⟨.error (.unknownParam funcName ref), e, buffer⟩
        | some p => ⟨.ok, e, buffer ++ [env.op.GET_LOCAL] ++ [byte p.Index]⟩
    | none => emitCall env recur e buffer funcName ref r

/-- Lines 219-227: an identifier right literal. `*operation` dereferences the
operator; the error of `emitOperation` is dropped. -/
def emitRightReference (env : Env) (e : Emitter) (buffer : Bytes) (funcName : String)
    (operation : Option String) (r : RightView) : Res :=
  match r.left.bind Literal.Reference with
  | none => ⟨.ok, e, buffer⟩
  | some ref =>
    match e.funcs.get? funcName with
    | none => ⟨.panic, e, buffer⟩
    | some fn =>
      match fn.Params.get? ref with
      | none => ⟨.error (.unknownRightParam funcName ref), e, buffer⟩
      | some p =>
        let buffer := buffer ++ [env.op.GET_LOCAL] ++ [byte p.Index]
        match operation with
        | none => ⟨.panic, e, buffer⟩
        | some o => ⟨.ok, e, (emitOperation env buffer funcName o).2⟩

/-- Lines 228-233: the rest of the chain. -/
def emitChain (recur : Emitter → Bytes → Res) (e : Emitter) (buffer : Bytes) (r : RightView) : Res :=
  match r with
  | some (some _, _) => recur e buffer
  | _ => ⟨.ok, e, buffer⟩

/-- The body of `emitExpression` (lines 134-234), with the two recursive calls
`e.emitExpression(buffer, funcName, r.Operator, nil, r.Right)` as `recur`. -/
def emitExpressionBody (env : Env) (recur : Emitter → Bytes → Res) (e : Emitter) (buffer : Bytes)
    (funcName : String) (operation : Option String) (l : Option Literal) (r : RightView) : Res :=
  let buffer := emitLeftNum env buffer l
  match emitRightNum env e buffer funcName operation r with
  | ⟨.ok, e, buffer⟩ =>
    match emitLeftReference env recur e buffer funcName operation l r with
    | ⟨.ok, e, buffer⟩ =>
      match emitRightReference env e buffer funcName operation r with
      | ⟨.ok, e, buffer⟩ => emitChain recur e buffer r
      | res => res
    | res => res
  | res => res

/-- The method `emitExpression` (lines 133-235), by recursion on `r`. -/
def emitExpression (env : Env) (funcName : String) :
    Expression → Emitter → Bytes → Option String → Option Literal → Res
  | .nil, e, buffer, operation, l =>
    emitExpressionBody env (fun e b => ⟨.ok, e, b⟩) e buffer funcName operation l none
  | .node rop rl rr, e, buffer, operation, l =>
    emitExpressionBody env (fun e b => emitExpression env funcName rr e b rop none)
      e buffer funcName operation l (some (rop, rl))

/-! ## Function bodies and the module -/

/-- The loop of `EmitFuncBody` over the statements (lines 115-123); `n` is
`len(body)` and `i` the index of the first statement of the list. -/
def emitStatements (env : Env) (name : String) (n : Nat) : List Block → Nat → Emitter → Bytes → Res
  | [], _, e, buf => ⟨.ok, e, buf⟩
  | s :: rest, i, e, buf =>
    match s.Exp with
    | .nil => ⟨.panic, e, buf⟩
    | .node operator left right =>
      match emitExpression env name right e buf operator left with
      | ⟨.ok, e, buf⟩ =>
        let buf := if i ≠ n - 1 then buf ++ [env.op.DROP] else buf
        emitStatements env name n rest (i + 1) e buf
      | res => res

/-- The method `EmitFuncBody` (lines 111-131). -/
def EmitFuncBody (env : Env) (e : Emitter) (name : String) (body : List Block) : Status × Emitter :=
  match emitStatements env name body.length body 0 e [0x00] with
  | ⟨.ok, e, buf⟩ =>
    match e.funcs.get? name with
    | none => (.panic, e)
    | some fn =>
      let buf := if fn.ReturnType = "" then buf ++ [env.op.DROP] else buf
      let body := encodeSleb128 e.FuncsBodySection (int32 (buf.length + 1))
      (.ok, { e with FuncsBodySection := body ++ buf ++ [env.op.END] })
  | ⟨st, e, _⟩ => (st, e)

/-- The parameter loops of `EmitAll` (lines 354-360 and 379-385), filling the
table of a descriptor that was just created. -/
def registerParams : List Param → Nat → GoMap FuncParam → GoMap FuncParam
  | [], _, m => m
  | param :: rest, pi, m =>
    registerParams rest (pi + 1) (m.set param.Name ⟨pi, param.Name, param.Typ.Name, 0⟩)

/-- One turn of the loop over the extern functions (lines 348-366). -/
def emitExternFunc (env : Env) (moduleName : String) (e : Emitter) (a : ExternFunc) : Status × Emitter :=
  let fd : FuncData := ⟨e.externFuncsCount, a.Name, registerParams a.Parameters 0 [], a.ReturnType⟩
  let e := { e with funcs := e.funcs.set a.Name fd }
  match EmitTypes env e a.Name with
  | (.ok, e) =>
    let e := EmitImports e moduleName a.Name e.externFuncsCount
    (.ok, { e with externFuncsCount := e.externFuncsCount + 1 })
  | (.error err, e) => (.error (.failedEmitTypes err), e)
  | (.panic, e) => (.panic, e)

/-- The loop over the extern functions of a module (line 347). -/
def emitExternFuncs (env : Env) (moduleName : String) : List ExternFunc → Emitter → Status × Emitter
  | [], e => (.ok, e)
  | a :: rest, e =>
    match emitExternFunc env moduleName e a with
    | (.ok, e) => emitExternFuncs env moduleName rest e
    | res => res

/-- The return type `EmitAll` registers for a definition (lines 369-372). -/
def registeredReturnType (returnTypes : List String) : String :=
  if returnTypes.length > 1 then returnTypes.headD "" else ""

/-- One turn of the loop over the definitions (lines 369-399). -/
def emitFun (env : Env) (e : Emitter) (fn : Fun) : Status × Emitter :=
  let returnType := registeredReturnType fn.ReturnTypes
  let fd : FuncData :=
    ⟨e.externFuncsCount + e.funcsCount, fn.Name, registerParams fn.Parameters 0 [], returnType⟩
  let e := { e with funcs := e.funcs.set fn.Name fd }
  match EmitTypes env e fn.Name with
  | (.ok, e) =>
    let e := EmitFuncs e fn.Name (e.externFuncsCount + e.funcsCount)
    match EmitFuncBody env e fn.Name fn.Body with
    | (.ok, e) => (.ok, { e with funcsCount := e.funcsCount + 1 })
    | (.error err, e) => (.error (.failedEmitFuncBody err), e)
    | (.panic, e) => (.panic, e)
  | (.error err, e) => (.error (.failedEmitTypes err), e)
  | (.panic, e) => (.panic, e)

/-- The loop over the definitions of a module (line 368). -/
def emitFuns (env : Env) : List Fun → Emitter → Status × Emitter
  | [], e => (.ok, e)
  | fn :: rest, e =>
    match emitFun env e fn with
    | (.ok, e) => emitFuns env rest e
    | res => res

/-- The loop over the modules (lines 346-401). -/
def emitModules (env : Env) : List Module → Emitter → Status × Emitter
  | [], e => (.ok, e)
  | p :: rest, e =>
    match emitExternFuncs env p.Name p.ExternFuncs e with
    | (.ok, e) =>
      match emitFuns env p.Funs e with
      | (.ok, e) => emitModules env rest e
      | res => res
    | res => res

/-- The preamble of `EmitAll` (lines 341-342): magic number and version. -/
def preamble : Bytes := [0x00, 0x61, 0x73, 0x6d] ++ [0x01, 0x00, 0x00, 0x00]

/-- The end of `EmitAll` (lines 403-418): the sections, framed, after the
bytes already in `buffer`. -/
def writeSections (env : Env) (e : Emitter) (buffer : Bytes) : Bytes :=
  let buffer := buffer ++ [env.op.SECTION_TYPES, byte (e.TypesSection.length + 1),
    byte (e.externFuncsCount + e.funcsCount)]
  let buffer := buffer ++ e.TypesSection
  let buffer := buffer ++ [env.op.SECTION_IMPORTS, byte (e.ImportsSection.length + 1),
    byte e.externFuncsCount]
  let buffer := buffer ++ e.ImportsSection
  let buffer := buffer ++ [env.op.SECTION_FUNCS, byte (e.FuncsSection.length + 1),
    byte e.funcsCount]
  let buffer := buffer ++ e.FuncsSection
  let buffer := buffer ++ [env.op.SECTION_MEMORY, byte (e.MemorySection.length + 1), 0x01]
  let buffer := buffer ++ e.MemorySection
  let buffer := buffer ++ [env.op.SECTION_GLOBALS, byte (e.GlobalsSection.length + 1),
    byte e.globalsCount]
  let buffer := buffer ++ e.GlobalsSection
  let buffer := buffer ++ [env.op.SECTION_EXPORTS, byte (e.ExportsSection.length + 1),
    byte e.funcsCount]
  let buffer := buffer ++ e.ExportsSection
  let buffer := buffer ++ [env.op.SECTION_FUNCS_BODY]
  let buffer := encodeSleb128 buffer (int32 (e.FuncsBodySection.length + 1))
  let buffer := buffer ++ [byte e.funcsCount]
  buffer ++ e.FuncsBodySection

/-- What `EmitAll` hands back: a buffer and a nil error, a nil buffer and an
error, or a run-time panic. -/
inductive Output where
  | buffer (b : Bytes)
  | error (err : EmitError)
  | panic
  deriving DecidableEq, Repr

/-- The emitter after the first part of `EmitAll` (lines 343-401): memory,
runtime global, and the pass over the tree. -/
def emitTree (env : Env) (e : Emitter) : Status × Emitter :=
  emitModules env e.Tree.Modules (EmitRuntime env (EmitMemory e))

/-- The method `EmitAll` (lines 339-420). -/
def EmitAll (env : Env) (e : Emitter) : Output :=
  match emitTree env e with
  | (.ok, e) => .buffer (writeSections env e preamble)
  | (.error err, _) => .error err
  | (.panic, _) => .panic

/-- An environment in which `range` visits a table in insertion order. -/
def wasmEnv : Env where
  op := wasmOp
  range := fun m => m
  range_perm := fun m => List.Perm.refl m

/-! ## Inputs used below -/

/-- The tree with no module at all. -/
def emptyAst : Ast := ⟨[]⟩

/-- The bit pattern of the `float64` 42. -/
def f42 : Float64 := 0x4045000000000000

/-- The bit pattern of the `float64` 1. -/
def f1 : Float64 := 0x3FF0000000000000

/-- The bit pattern of the `float64` 2. -/
def f2 : Float64 := 0x4000000000000000

/-- The statement `print(42)`: `Left.Reference = "print"`, no operator,
`Right.Left.Params = [42]`. -/
def printCall : Block :=
  ⟨.node none (some (.mk none none (some "print") []))
    (.node none (some (.mk none none none [.mk (some f42) none none []])) .nil)⟩

/-- Module `env` with `extern print(x: i32)` and `main() = print(42)`. -/
def printAst : Ast :=
  ⟨[⟨"env", [⟨"print", [⟨"x", ⟨"i32"⟩⟩], ""⟩], [⟨"main", [], [], [printCall]⟩]⟩]⟩

/-- The emitter when the pass over `printAst` starts. -/
def printState0 (env : Env) : Emitter :=
  EmitRuntime env (EmitMemory (NewEmitter printAst))

/-- The emitter after `print` is registered. -/
def printState1 (env : Env) : Emitter :=
  { printState0 env with
    funcs := [("print", ⟨0, "print", [("x", ⟨0, "x", "i32", 0⟩)], ""⟩)]
    TypesSection := [0x60, 1, env.op.I32, 0x00]
    ImportsSection := [3, 101, 110, 118, 5, 112, 114, 105, 110, 116, 0x00, 0x00]
    externFuncsCount := 1 }

/-- The emitter after `main` is emitted. -/
def printState2 (env : Env) : Emitter :=
  { printState1 env with
    funcs := [("print", ⟨0, "print", [("x", ⟨0, "x", "i32", 0⟩)], ""⟩),
              ("main", ⟨1, "main", [], ""⟩)]
    TypesSection := [0x60, 1, env.op.I32, 0x00] ++ [0x60, 0, 0x00]
    FuncsSection := [1]
    ExportsSection := [4, 109, 97, 105, 110, 0x00, 1]
    FuncsBodySection := [7, 0x00, env.op.I32_CONST, 42, env.op.CALL, 0, env.op.DROP, env.op.END]
    funcsCount := 1 }

/-- The bytes of an output buffer (none when `EmitAll` failed). -/
def Output.bytes : Output → Bytes
  | .buffer b => b
  | _ => []

/-- A numeric literal. -/
def numLit (f : Float64) : Literal := .mk (some f) none none []

/-- An identifier literal. -/
def refLit (name : String) : Literal := .mk none none (some name) []

/-- A string literal. -/
def strLit (s : String) : Literal := .mk none (some s) none []

/-- The literal that carries the argument list of a call. -/
def argsLit (args : List Literal) : Literal := .mk none none none args

/-- The emitter in which `f(x: num)` (index 0, no return type) is registered. -/
def stateF : Emitter :=
  { NewEmitter emptyAst with
    funcs := [("f", ⟨0, "f", [("x", ⟨0, "x", "num", 0⟩)], ""⟩)]
    funcsCount := 1 }

/-- Two modules: `a` defines `f()`, then `b` declares `extern g()`. -/
def twoModuleAst : Ast :=
  ⟨[⟨"a", [], [⟨"f", [], [], []⟩]⟩, ⟨"b", [⟨"g", [], ""⟩], []⟩]⟩

/-- One module with 85 extern functions `a`, `aa`, `aaa`, ... without
parameters and without return type. -/
def manyExternsAst : Ast :=
  ⟨[⟨"m", (List.range 85).map (fun i => ⟨String.mk (List.replicate (i + 1) 'a'), [], ""⟩), []⟩]⟩

/-- The function `f(x: num)` whose body is the statement `x + 1`. -/
def addAst : Ast :=
  ⟨[⟨"m", [], [⟨"f", [⟨"x", ⟨"num"⟩⟩], [],
    [⟨.node (some "+") (some (refLit "x")) (.node none (some (numLit f1)) .nil)⟩]⟩]⟩]⟩

/-- The function `f()` whose body is the statement `1 % 2`. -/
def modAst : Ast :=
  ⟨[⟨"m", [], [⟨"f", [], [],
    [⟨.node (some "%") (some (numLit f1)) (.node none (some (numLit f2)) .nil)⟩]⟩]⟩]⟩

/-- The function `f()` that declares the single return type `num`. -/
def oneReturnAst : Ast := ⟨[⟨"m", [], [⟨"f", [], ["num"], []⟩]⟩]⟩

/-- The function `f()` that declares the return types `num` and `bad`. -/
def twoReturnAst : Ast := ⟨[⟨"m", [], [⟨"f", [], ["num", "bad"], []⟩]⟩]⟩

/-- A parameter list declares a parameter of unrecognised type that no later
parameter of the same name replaces in the table. -/
def HasBadParam (op : Op) (ps : List Param) : Prop :=
  ∃ l₁ p l₂, ps = l₁ ++ p :: l₂ ∧ typeMap op p.Typ.Name = none ∧ ∀ q ∈ l₂, q.Name ≠ p.Name

/-- An extern declaration with such a parameter, or with a return type that
is present and unrecognised. -/
def BadExtern (op : Op) (a : ExternFunc) : Prop :=
  HasBadParam op a.Parameters ∨ (a.ReturnType ≠ "" ∧ typeMap op a.ReturnType = none)

/-- A definition with such a parameter, or with two or more return types the
first of which is present and unrecognised. -/
def BadFun (op : Op) (fn : Fun) : Prop :=
  HasBadParam op fn.Parameters ∨
    ∃ t t₂ rest, fn.ReturnTypes = t :: t₂ :: rest ∧ t ≠ "" ∧ typeMap op t = none

/-- A tree with such an extern declaration or definition in some module. -/
def BadAst (op : Op) (ast : Ast) : Prop :=
  ∃ m ∈ ast.Modules, (∃ a ∈ m.ExternFuncs, BadExtern op a) ∨ (∃ fn ∈ m.Funs, BadFun op fn)

/-- The function `f(x: bad)`, alone in its module. -/
def badParamAst : Ast := ⟨[⟨"m", [], [⟨"f", [⟨"x", ⟨"bad"⟩⟩], [], []⟩]⟩]⟩

/-- An environment in which `range` visits a table in reverse insertion order. -/
def revEnv : Env where
  op := wasmOp
  range := fun m => m.reverse
  range_perm := fun m => List.reverse_perm m

/-- The bit pattern of the `float64` 64. -/
def f64lit : Float64 := 0x4050000000000000

/-- The bit pattern of the `float64` 128. -/
def f128lit : Float64 := 0x4060000000000000

/-- The bit pattern of the `float64` -1. -/
def fneg1 : Float64 := 0xBFF0000000000000

/-- The emitter in which `g(a: num, b: i32)` was just registered with index 0. -/
def stateG2 : Emitter :=
  { NewEmitter emptyAst with
    funcs := GoMap.set [] "g"
      (FuncData.mk 0 "g" (registerParams [⟨"a", ⟨"num"⟩⟩, ⟨"b", ⟨"i32"⟩⟩] 0 []) "") }

/-- The emitter in which `g()` (index 0), `print(x: i32)` (index 1) and the
caller `f(x: num)` (index 2) are registered. -/
def stateCalls : Emitter :=
  { NewEmitter emptyAst with
    funcs := [("g", ⟨0, "g", [], ""⟩),
              ("print", ⟨1, "print", [("x", ⟨0, "x", "i32", 0⟩)], ""⟩),
              ("f", ⟨2, "f", [("x", ⟨0, "x", "num", 0⟩)], ""⟩)]
    externFuncsCount := 2
    funcsCount := 1 }

/-- The call `print(n)` as `emitExpression` receives its right-hand node. -/
def oneArg (arg : Literal) : Expression := .node none (some (argsLit [arg])) .nil

/-- One store sequence as the spec describes it: advance the heap pointer by
`d`, then store the constant `v` at the new address. -/
def storeSeq (op : Op) (d : Nat) (v : Int) : Bytes :=
  [op.GET_GLOBAL, 0x00, op.I32_CONST, d, op.I32_ADD, op.SET_GLOBAL, 0x00, op.GET_GLOBAL, 0x00]
    ++ [op.I32_CONST] ++ sleb128 5 v ++ [op.I32_STORE, 0x02, 0x00]

/-- The filler the spec describes for a string of `n` bytes. -/
def specPadding (n : Nat) : Bytes :=
  if n % 4 = 0 then []
  else if n % 4 = 3 then [10]
  else if n % 4 = 2 then [0, 10]
  else [0, 0, 10]

/-- The 32-bit little-endian word formed by bytes `4k .. 4k+3` of `data`. -/
def specWord (data : Bytes) (k : Nat) : Int :=
  int32 (littleEndianUint32 ((data.take (4 * k + 4)).drop (4 * k)))

/-- The bytes the spec describes for a string with bytes `s`: a store of the
marker 8, a store of the padded length, then one store per word; `d` is the
step of the very first store sequence. -/
def specString (op : Op) (d : Nat) (s : Bytes) : Bytes :=
  storeSeq op d 8 ++ storeSeq op 4 (int32 (s ++ specPadding s.length).length)
    ++ (List.range ((s ++ specPadding s.length).length / 4)).flatMap
        (fun k => storeSeq op 4 (specWord (s ++ specPadding s.length) k))

/-- The statements of a body lower one after the other in function `name`,
from emitter `e` to emitter `e'`, each appending its own byte string to
whatever buffer it is handed. -/
inductive Lowered (env : Env) (name : String) : Emitter → List Block → List Bytes → Emitter → Prop
  | nil (e : Emitter) : Lowered env name e [] [] e
  | cons (e e' e'' : Emitter) (operator : Option String) (left : Option Literal)
      (right : Expression) (c : Bytes) (rest : List Block) (cs : List Bytes) :
      (∀ buf, emitExpression env name right e buf operator left = ⟨.ok, e', buf ++ c⟩) →
      Lowered env name e' rest cs e'' →
      Lowered env name e (⟨.node operator left right⟩ :: rest) (c :: cs) e''

/-- The byte strings `c1 .. cn` with one `DROP` between consecutive ones. -/
def joinWithDrop (op : Op) : List Bytes → Bytes
  | [] => []
  | [c] => c
  | c :: c' :: cs => c ++ [op.DROP] ++ joinWithDrop op (c' :: cs)

/-- What the spec says follows the size of a body: the zero local-declaration
count, the statements joined by `DROP`, one more `DROP` when there is no
return type, and `END`. -/
def bodyPayload (op : Op) (cs : List Bytes) (returnType : String) : Bytes :=
  [0x00] ++ joinWithDrop op cs ++ (if returnType = "" then [op.DROP] else []) ++ [op.END]

/-- The statement that is the numeric literal 1 alone. -/
def oneStmt : Block := ⟨.node none (some (numLit f1)) .nil⟩

/-- The same names are registered in `e'` as in `e`. -/
def SameKeys (e e' : Emitter) : Prop :=
  ∀ g, (e'.funcs.get? g).isSome = (e.funcs.get? g).isSome

/-- The emitter after `EmitAll` has registered the extern function `a`
(lines 348-360). -/
def registerExtern (e : Emitter) (a : ExternFunc) : Emitter :=
  { e with
    funcs :=
      e.funcs.set a.Name
        (FuncData.mk e.externFuncsCount a.Name (registerParams a.Parameters 0 []) a.ReturnType) }

/-- The emitter after `EmitAll` has registered the definition `fn`
(lines 369-385). -/
def registerFun (e : Emitter) (fn : Fun) : Emitter :=
  { e with
    funcs :=
      e.funcs.set fn.Name
        (FuncData.mk (e.externFuncsCount + e.funcsCount) fn.Name
          (registerParams fn.Parameters 0 []) (registeredReturnType fn.ReturnTypes)) }

/-- The names a module declares: its extern functions, then its definitions. -/
def Module.names (m : Module) : List String :=
  m.ExternFuncs.map (fun a => a.Name) ++ m.Funs.map (fun fn => fn.Name)

/-- The names declared by a list of modules. -/
def declaredNames (ms : List Module) : List String :=
  ms.flatMap Module.names

/-- The name `g` is registered in `e`. -/
def hasKey (e : Emitter) (g : String) : Bool := (e.funcs.get? g).isSome

/-- An error raised while an argument or a chained operand is looked up in the
enclosing function's parameter table (lines 184 and 222). -/
def ArgOrChainError (err : EmitError) : Prop :=
  (∃ x y z, err = .unknownVariable x y z) ∨ (∃ x y, err = .unknownRightParam x y)

/-- Emission of the tree `ms₁ ++ m :: ms₂` gets as far as the statement that
follows `b₁` in the body of `fn`, the definition that follows `fs₁` in module
`m`: everything before it is emitted without failure, and the statement is
lowered in emitter `ee` with the code buffer `buf`. -/
def Reaches (env : Env) (ms₁ : List Module) (m : Module) (ms₂ : List Module) (fs₁ : List Fun)
    (fn : Fun) (b₁ : List Block) (ee : Emitter) (buf : Bytes) : Prop :=
  ∃ ea eb ec ed,
    emitModules env ms₁ (EmitRuntime env (EmitMemory (NewEmitter ⟨ms₁ ++ m :: ms₂⟩))) = (.ok, ea) ∧
    emitExternFuncs env m.Name m.ExternFuncs ea = (.ok, eb) ∧
    emitFuns env fs₁ eb = (.ok, ec) ∧
    EmitTypes env (registerFun ec fn) fn.Name = (.ok, ed) ∧
    emitStatements env fn.Name fn.Body.length b₁ 0
      (EmitFuncs ed fn.Name (ed.externFuncsCount + ed.funcsCount)) [0x00] = ⟨.ok, ee, buf⟩

/-- The call statement `g(args)`: `Left.Reference = g`, no operator,
`Right.Left.Params = args`. -/
def callStmt (g : String) (args : List Literal) : Block :=
  ⟨.node none (some (refLit g)) (.node none (some (argsLit args)) .nil)⟩

/-- The definition `f() = g()`. -/
def callerOfG : Fun := ⟨"f", [], [], [callStmt "g" []]⟩

/-- The definition `g() = 1`. -/
def calleeG : Fun := ⟨"g", [], [], [oneStmt]⟩

/-- Module `m` with `f() = g()` followed by `g() = 1`: the callee is defined
after the caller. -/
def laterAst : Ast := ⟨[⟨"m", [], [callerOfG, calleeG]⟩]⟩

/-- The statement `y + 1`. -/
def yPlusOne : Block :=
  ⟨.node (some "+") (some (refLit "y")) (.node none (some (numLit f1)) .nil)⟩

/-- Module `m` with `f()` whose body is `y + 1` and then `g()`, followed by
`g() = 1`. -/
def shadowedAst : Ast := ⟨[⟨"m", [], [⟨"f", [], [], [yPlusOne, callStmt "g" []]⟩, calleeG]⟩]⟩

/-- The extern declaration `g(x: num, x: num)`: two parameters of one name. -/
def twiceX : ExternFunc := ⟨"g", [⟨"x", ⟨"num"⟩⟩, ⟨"x", ⟨"num"⟩⟩], ""⟩

/-- Module `m` with `extern g(x: num, x: num)` and `f() = g(1)`. -/
def dupParamAst : Ast := ⟨[⟨"m", [twiceX], [⟨"f", [], [], [callStmt "g" [numLit f1]]⟩]⟩]⟩

/-- Module `m` with `extern g(x: num, x: num)` and `f() = g(1, 2)`. -/
def dupParamAst2 : Ast :=
  ⟨[⟨"m", [twiceX], [⟨"f", [], [], [callStmt "g" [numLit f1, numLit f2]]⟩]⟩]⟩

/-- The extern declaration `g(x: num)`. -/
def externG : ExternFunc := ⟨"g", [⟨"x", ⟨"num"⟩⟩], ""⟩

/-- The definition `f() = g(1, 2)`. -/
def callerTwoArgs : Fun := ⟨"f", [], [], [callStmt "g" [numLit f1, numLit f2]]⟩

/-- Module `m` with `extern g(x: num)` and `f() = g(1, 2)`. -/
def arityAst : Ast := ⟨[⟨"m", [externG], [callerTwoArgs]⟩]⟩

/-- The definition `f() = f()`. -/
def selfCaller : Fun := ⟨"f", [], [], [callStmt "f" []]⟩

/-- The emitter in which the body of `fn` is lowered when `fn` is the first
declaration of the tree: `fn` is registered, its type record and its function
and export entries are written. -/
def firstBodyState (env : Env) (tree : Ast) (fn : Fun) : Emitter :=
  let ed := (EmitTypes env (registerFun (EmitRuntime env (EmitMemory (NewEmitter tree))) fn)
    fn.Name).2
  EmitFuncs ed fn.Name (ed.externFuncsCount + ed.funcsCount)

/-- The name and the number of parameter-table entries under which `g` is
registered in `e`: what the arity check at line 167 reads. -/
def registeredArity (e : Emitter) (g : String) : Option (String × Nat) :=
  (e.funcs.get? g).map (fun cf => (cf.Name, cf.Params.length))

/-- The registry of `e'` has the names and table sizes of the registry of `e`. -/
def SameArity (e e' : Emitter) : Prop :=
  ∀ g, registeredArity e' g = registeredArity e g

/-- The number of distinct parameter names of a declared parameter list. -/
def paramCount (ps : List Param) : Nat :=
  (ps.map (fun p => p.Name)).dedup.length

/-- The parameter list of the last declaration of `g` in a list of
declarations (name, parameters), `acc` when there is none. -/
def lastDeclared : List (String × List Param) → String → Option (List Param) → Option (List Param)
  | [], _, acc => acc
  | d :: rest, g, acc => lastDeclared rest g (if d.1 = g then some d.2 else acc)

/-- The declarations of the extern functions `l`. -/
def externDecls (l : List ExternFunc) : List (String × List Param) :=
  l.map (fun a => (a.Name, a.Parameters))

/-- The declarations of the definitions `l`. -/
def funDecls (l : List Fun) : List (String × List Param) :=
  l.map (fun fn => (fn.Name, fn.Parameters))

/-- The declarations of a module, in the order `EmitAll` registers them. -/
def Module.decls (m : Module) : List (String × List Param) :=
  externDecls m.ExternFuncs ++ funDecls m.Funs

/-- The declarations `EmitAll` has registered when it lowers the body of `fn`,
the definition after `fs₁` in module `m`, after the modules `ms₁`. -/
def declsBefore (ms₁ : List Module) (m : Module) (fs₁ : List Fun) (fn : Fun) :
    List (String × List Param) :=
  ms₁.flatMap Module.decls ++ (externDecls m.ExternFuncs ++ (funDecls fs₁ ++ funDecls [fn]))

/-- The registry entry of `g` in `e` is the one of the declaration `acc`. -/
def Tracks (e : Emitter) (g : String) (acc : Option (List Param)) : Prop :=
  registeredArity e g = acc.map (fun ps => (g, (registerParams ps 0 []).length))

/-- The definition `f() = g(1)`. -/
def callerOneArg : Fun := ⟨"f", [], [], [callStmt "g" [numLit f1]]⟩

/-- The emitter in which the body of `fn` is lowered when `fn` is the first
definition of the first module `m` of the tree: the extern functions of `m`
and `fn` are registered, and the type record and the function and export
entries of `fn` are written. -/
def bodyStateAfterExterns (env : Env) (tree : Ast) (m : Module) (fn : Fun) : Emitter :=
  let eb := (emitExternFuncs env m.Name m.ExternFuncs
    (EmitRuntime env (EmitMemory (NewEmitter tree)))).2
  let ed := (EmitTypes env (registerFun eb fn) fn.Name).2
  EmitFuncs ed fn.Name (ed.externFuncsCount + ed.funcsCount)

/-! ## Basic facts -/

theorem Env.range_nil (env : Env) : env.range [] = [] :=
  List.Perm.eq_nil (env.range_perm [])

theorem Env.range_singleton (env : Env) (x : String × FuncParam) : env.range [x] = [x] :=
  List.perm_singleton.mp (env.range_perm [x])

theorem Env.mem_range (env : Env) (m : GoMap FuncParam) (x : String × FuncParam) :
    x ∈ env.range m ↔ x ∈ m :=
  (env.range_perm m).mem_iff

theorem GoMap.get?_set_self {α : Type} (m : GoMap α) (k : String) (v : α) :
    (GoMap.set m k v).get? k = some v := by
  induction m with
  | nil => simp [GoMap.set, GoMap.get?]
  | cons hd tl ih =>
    obtain ⟨k', v'⟩ := hd
    by_cases hk : k' = k
    · simp [GoMap.set, GoMap.get?, hk]
    · simp [GoMap.set, GoMap.get?, hk, ih]

theorem goBytes_env : goBytes "env" = [101, 110, 118] := by decide

theorem goBytes_print : goBytes "print" = [112, 114, 105, 110, 116] := by decide

theorem goBytes_main : goBytes "main" = [109, 97, 105, 110] := by decide

/-! ## Modules without functions -/

theorem emitModules_of_no_function (env : Env) (ms : List Module) (e : Emitter)
    (h : ∀ m ∈ ms, m.ExternFuncs = [] ∧ m.Funs = []) : emitModules env ms e = (.ok, e) := by
  induction ms with
  | nil => rfl
  | cons m rest ih =>
    have hm := h m (List.mem_cons_self m rest)
    have hrest : ∀ m' ∈ rest, m'.ExternFuncs = [] ∧ m'.Funs = [] :=
      fun m' hm' => h m' (List.mem_cons_of_mem m hm')
    simp only [emitModules, hm.1, hm.2, emitExternFuncs, emitFuns, ih hrest]

/-- C5: when no module declares an extern function or a definition (also when
there is no module), `EmitAll` succeeds and the buffer is the magic and the
version, then the type, import and function sections with count 0 and no data,
the memory section with one memory (flags 0, one page), the globals section
with one global (I32, mutable, `I32_CONST 0`, `END`), and the export and code
sections with count 0 and no data. -/
theorem C5_no_function (env : Env) (ast : Ast)
    (h : ∀ m ∈ ast.Modules, m.ExternFuncs = [] ∧ m.Funs = []) :
    EmitAll env (NewEmitter ast) = .buffer
      ([0x00, 0x61, 0x73, 0x6d] ++ [0x01, 0x00, 0x00, 0x00]
        ++ [env.op.SECTION_TYPES, 1, 0]
        ++ [env.op.SECTION_IMPORTS, 1, 0]
        ++ [env.op.SECTION_FUNCS, 1, 0]
        ++ [env.op.SECTION_MEMORY, 3, 1] ++ [0x00, 0x01]
        ++ [env.op.SECTION_GLOBALS, 6, 1] ++ [env.op.I32, 0x01, env.op.I32_CONST, 0x00, env.op.END]
        ++ [env.op.SECTION_EXPORTS, 1, 0]
        ++ [env.op.SECTION_FUNCS_BODY, 1, 0]) := by
  have hm : emitTree env (NewEmitter ast) =
      (.ok, EmitRuntime env (EmitMemory (NewEmitter ast))) :=
    emitModules_of_no_function env ast.Modules _ h
  simp only [EmitAll, hm]
  simp [writeSections, preamble, EmitRuntime, EmitMemory, NewEmitter, encodeSleb128, sleb128,
    int32, byte]

/-- C5 at a tree of two modules without functions, under the reference table. -/
theorem C5_no_function_witness :
    (∀ m ∈ (Ast.mk [⟨"a", [], []⟩, ⟨"b", [], []⟩]).Modules, m.ExternFuncs = [] ∧ m.Funs = []) ∧
    EmitAll wasmEnv (NewEmitter ⟨[⟨"a", [], []⟩, ⟨"b", [], []⟩]⟩) = .buffer
      [0, 97, 115, 109, 1, 0, 0, 0, 1, 1, 0, 2, 1, 0, 3, 1, 0, 5, 3, 1, 0, 1,
       6, 6, 1, 127, 1, 65, 0, 11, 7, 1, 0, 10, 1, 0] :=
  ⟨by simp, C5_no_function wasmEnv ⟨[⟨"a", [], []⟩, ⟨"b", [], []⟩]⟩ (by simp)⟩

/-! ## The `print(42)` module -/

theorem byteOfInt_f42 : byteOfInt (int32OfFloat64 f42) = 42 := by decide

theorem emitCallStrings_of_no_string (env : Env) (callee : String) (args : List Literal) (i : Nat)
    (e : Emitter) (b : Bytes) (h : ∀ v ∈ args, v.Str = none) :
    emitCallStrings env callee args i e b = (e, b) := by
  induction args generalizing i with
  | nil => rfl
  | cons v rest ih =>
    have hv : v.Str = none := h v (List.mem_cons_self v rest)
    have hrest : ∀ w ∈ rest, w.Str = none := fun w hw => h w (List.mem_cons_of_mem v hw)
    simp only [emitCallStrings, hv]
    cases e.funcs.get? callee with
    | none => exact ih (i + 1) hrest
    | some callFunc =>
      simp only []
      cases List.find? (fun kp => decide (i = kp.2.Index)) (env.range callFunc.Params) with
      | none => exact ih (i + 1) hrest
      | some kp => exact ih (i + 1) hrest

theorem emit_print_call (env : Env) (e : Emitter) (buf : Bytes) (fs : GoMap FuncData)
    (h : e.funcs = ("print", ⟨0, "print", [("x", ⟨0, "x", "i32", 0⟩)], ""⟩) :: fs) :
    emitExpression env "main"
        (.node none (some (.mk none none none [.mk (some f42) none none []])) .nil) e buf none
        (some (.mk none none (some "print") [])) =
      ⟨.ok, e, buf ++ [env.op.I32_CONST, 42, env.op.CALL, 0]⟩ := by
  have hs : emitCallStrings env "print" [.mk (some f42) none none []] 0 e buf = (e, buf) :=
    emitCallStrings_of_no_string env _ _ _ _ _ (by simp [Literal.Str])
  simp only [emitExpression]
  simp only [emitExpressionBody, emitLeftNum, Literal.Num, Option.bind]
  simp only [emitRightNum, RightView.left, Literal.Num, Option.bind]
  simp only [emitLeftReference, Literal.Reference, Option.bind]
  simp only [emitCall, h, GoMap.get?, if_true, Literal.Params, hs]
  simp only [emitCallArgs, emitArgReference, emitArgConst, Literal.Reference, Literal.Num,
    Literal.Str, Env.range_singleton]
  simp [emitRightReference, RightView.left, Literal.Reference, emitChain, byteOfInt_f42, byte]

theorem emit_print_extern (env : Env) :
    emitExternFunc env "env" (printState0 env) ⟨"print", [⟨"x", ⟨"i32"⟩⟩], ""⟩ =
      (.ok, printState1 env) := by
  simp only [emitExternFunc, registerParams, GoMap.set, printState0, EmitRuntime, EmitMemory,
    NewEmitter, EmitTypes, GoMap.get?, if_true]
  simp only [Env.range_singleton, emitParamTypes, typeMap]
  simp [EmitImports, strLen, goBytes_env, goBytes_print, byte, printState1, printState0,
    EmitRuntime, EmitMemory, NewEmitter]

theorem emit_print_main (env : Env) :
    emitFun env (printState1 env) ⟨"main", [], [], [printCall]⟩ = (.ok, printState2 env) := by
  have hcall := fun (e : Emitter) (buf : Bytes) (fs : GoMap FuncData) h =>
    emit_print_call env e buf fs h
  simp only [emitFun, registeredReturnType, registerParams, printState1, GoMap.set,
    EmitTypes, GoMap.get?, String.reduceEq, ↓reduceIte, List.length_nil, gt_iff_lt,
    Nat.not_lt_zero, ne_eq, not_true_eq_false, Env.range_nil, emitParamTypes]
  simp only [EmitFuncs, EmitFuncBody, emitStatements, printCall, List.length]
  rw [hcall _ _ _ rfl]
  simp only [GoMap.get?, String.reduceEq, ↓reduceIte, List.length_append, List.length_cons,
    List.length_nil, ne_eq, not_true_eq_false, Nat.add_sub_cancel]
  simp [encodeSleb128, sleb128, int32, byte, strLen, goBytes_main, printState2, printState1,
    printState0, EmitRuntime, EmitMemory, NewEmitter]

theorem emit_print_tree (env : Env) :
    emitTree env (NewEmitter printAst) = (.ok, printState2 env) := by
  have h0 : emitTree env (NewEmitter printAst) =
      emitModules env [⟨"env", [⟨"print", [⟨"x", ⟨"i32"⟩⟩], ""⟩], [⟨"main", [], [], [printCall]⟩]⟩]
        (printState0 env) := rfl
  rw [h0]
  simp only [emitModules, emitExternFuncs, emit_print_extern, emitFuns, emit_print_main]

/-- C4: for module `env` with `extern print(x: i32)` and `main() = print(42)`,
`EmitAll` succeeds; the import data is `3 "env" 5 "print" 0x00 0x00`, the type
record of `print` is `0x60 1 I32 0x00`, and the code section holds one body
whose instructions, after the zero local-declaration byte, start with
`I32_CONST 42`, `CALL 0`. -/
theorem C4_print_main (env : Env) :
    (∃ e, emitTree env (NewEmitter printAst) = (.ok, e) ∧
      e.ImportsSection = [3, 101, 110, 118, 5, 112, 114, 105, 110, 116, 0x00, 0x00] ∧
      e.TypesSection = [0x60, 1, env.op.I32, 0x00] ++ [0x60, 0, 0x00] ∧
      e.funcsCount = 1 ∧
      e.FuncsBodySection =
        [7] ++ [0x00] ++ [env.op.I32_CONST, 42, env.op.CALL, 0] ++ [env.op.DROP] ++ [env.op.END]) ∧
    EmitAll env (NewEmitter printAst) = .buffer
      ([0x00, 0x61, 0x73, 0x6d] ++ [0x01, 0x00, 0x00, 0x00]
        ++ [env.op.SECTION_TYPES, 8, 2] ++ [0x60, 1, env.op.I32, 0x00] ++ [0x60, 0, 0x00]
        ++ [env.op.SECTION_IMPORTS, 13, 1]
        ++ [3, 101, 110, 118, 5, 112, 114, 105, 110, 116, 0x00, 0x00]
        ++ [env.op.SECTION_FUNCS, 2, 1] ++ [1]
        ++ [env.op.SECTION_MEMORY, 3, 1] ++ [0x00, 0x01]
        ++ [env.op.SECTION_GLOBALS, 6, 1] ++ [env.op.I32, 0x01, env.op.I32_CONST, 0x00, env.op.END]
        ++ [env.op.SECTION_EXPORTS, 8, 1] ++ [4, 109, 97, 105, 110, 0x00, 1]
        ++ [env.op.SECTION_FUNCS_BODY, 9, 1]
        ++ [7, 0x00, env.op.I32_CONST, 42, env.op.CALL, 0, env.op.DROP, env.op.END]) := by
  have ht := emit_print_tree env
  refine ⟨⟨printState2 env, ht, rfl, rfl, rfl, rfl⟩, ?_⟩
  have hb : EmitAll env (NewEmitter printAst) =
      .buffer (writeSections env (printState2 env) preamble) := by
    simp only [EmitAll, ht]
  rw [hb]
  have hl : sleb128 5 (int32 ((8 : Nat) + 1)) = [9] := by decide
  simp only [writeSections, preamble, printState2, printState1, printState0, EmitRuntime,
    EmitMemory, NewEmitter, encodeSleb128, List.length_cons, List.length_nil, List.length_append,
    List.nil_append, Nat.reduceAdd, hl, byte, Nat.reduceMod, List.append_assoc, List.cons_append]

/-! ## Evaluations at concrete inputs -/

/-- C1: on two modules, `a` defining `f()` and `b` declaring `extern g()`,
the pass succeeds, yet `f` and `g` both get function index 0: the import record
of `g` and the function-section entry of `f` both carry type index 0, while the
type record of `g` is the second one of the type section. -/
theorem C1_index_collision :
    (emitTree wasmEnv (NewEmitter twoModuleAst)).1 = .ok ∧
    (emitTree wasmEnv (NewEmitter twoModuleAst)).2.funcs =
      [("f", ⟨0, "f", [], ""⟩), ("g", ⟨0, "g", [], ""⟩)] ∧
    (emitTree wasmEnv (NewEmitter twoModuleAst)).2.TypesSection = [0x60, 0, 0] ++ [0x60, 0, 0] ∧
    (emitTree wasmEnv (NewEmitter twoModuleAst)).2.ImportsSection = [1, 98, 1, 103, 0x00, 0] ∧
    (emitTree wasmEnv (NewEmitter twoModuleAst)).2.FuncsSection = [0] := by
  decide

set_option maxRecDepth 100000 in
/-- C3: with 85 extern functions the type section holds 255 data bytes, and
the length byte written after the section identifier 1 is 0, not the encoding
of 256. -/
theorem C3_section_length_wraps :
    (emitTree wasmEnv (NewEmitter manyExternsAst)).2.TypesSection.length = 255 ∧
    (EmitAll wasmEnv (NewEmitter manyExternsAst)).bytes.take 11 =
      [0x00, 0x61, 0x73, 0x6d] ++ [0x01, 0x00, 0x00, 0x00] ++ [1, 0, 85] ∧
    sleb128 5 (int32 (255 + 1)) = [128, 2] := by
  decide

/-- C6: for `x + 1` in `f(x: num)` the lowering succeeds and appends
`F64_CONST 1.0`, `F64_ADD`, and only then `GET_LOCAL 0`: the operator comes
before the left operand is pushed. The body of `f` in the module holds the
same bytes. -/
theorem C6_param_plus_literal_order :
    (emitExpression wasmEnv "f" (.node none (some (numLit f1)) .nil) stateF [] (some "+")
      (some (refLit "x"))).status = .ok ∧
    (emitExpression wasmEnv "f" (.node none (some (numLit f1)) .nil) stateF [] (some "+")
      (some (refLit "x"))).buffer =
      [wasmOp.F64_CONST] ++ float64ToByte f1 ++ [wasmOp.F64_ADD] ++ [wasmOp.GET_LOCAL, 0] ∧
    (emitTree wasmEnv (NewEmitter addAst)).2.FuncsBodySection =
      [15, 0x00] ++ ([wasmOp.F64_CONST] ++ float64ToByte f1 ++ [wasmOp.F64_ADD]
        ++ [wasmOp.GET_LOCAL, 0]) ++ [wasmOp.DROP, wasmOp.END] := by
  decide

/-- C7: for `1 % 2` the lowering returns no error: it appends the two
constants and no instruction for the operator, and `EmitAll` returns a buffer
for the module whose function `f` has this body. -/
theorem C7_invalid_operator_accepted :
    (emitExpression wasmEnv "f" (.node none (some (numLit f2)) .nil) stateF [] (some "%")
      (some (numLit f1))).status = .ok ∧
    (emitExpression wasmEnv "f" (.node none (some (numLit f2)) .nil) stateF [] (some "%")
      (some (numLit f1))).buffer =
      [wasmOp.F64_CONST] ++ float64ToByte f1 ++ ([wasmOp.F64_CONST] ++ float64ToByte f2) ∧
    (emitOperation wasmEnv [] "f" "%").1 = .error (.invalidOperation "f" "%") ∧
    EmitAll wasmEnv (NewEmitter modAst) = .buffer
      [0, 97, 115, 109, 1, 0, 0, 0, 1, 4, 1, 96, 0, 0, 2, 1, 0, 3, 2, 1, 0, 5, 3, 1, 0, 1,
       6, 6, 1, 127, 1, 65, 0, 11, 7, 5, 1, 1, 102, 0, 0, 10, 23, 1,
       21, 0, 68, 0, 0, 0, 0, 0, 0, 240, 63, 68, 0, 0, 0, 0, 0, 0, 0, 64, 26, 11] := by
  decide

/-- C8: for `f()` declared with the one return type `num`, the registered
return type is empty and the type record is `0x60 0 0x00`: the declared type is
dropped; with the two return types `num`, `bad` the first is registered. -/
theorem C8_single_return_type_dropped :
    registeredReturnType ["num"] = "" ∧
    (emitTree wasmEnv (NewEmitter oneReturnAst)).1 = .ok ∧
    (emitTree wasmEnv (NewEmitter oneReturnAst)).2.funcs = [("f", ⟨0, "f", [], ""⟩)] ∧
    (emitTree wasmEnv (NewEmitter oneReturnAst)).2.TypesSection = [0x60, 0, 0x00] ∧
    (emitTree wasmEnv (NewEmitter twoReturnAst)).2.TypesSection = [0x60, 0, 0x01, wasmOp.F64] := by
  decide

/-- C10: for the node with left identifier `g`, no operator and a right node
whose left literal is the number 1, in an emitter that has no function `g`, the
lowering appends `F64_CONST 1.0` and then dereferences the nil operator: it
does not return the unknown-function error. -/
theorem C10_unknown_callee_panics :
    stateF.funcs.get? "g" = none ∧
    (emitExpression wasmEnv "f" (.node none (some (numLit f1)) .nil) stateF [] none
      (some (refLit "g"))).status = .panic ∧
    (emitExpression wasmEnv "f" (.node none (some (numLit f1)) .nil) stateF [] none
      (some (refLit "g"))).buffer = [wasmOp.F64_CONST] ++ float64ToByte f1 := by
  decide

theorem printAst_output :
    EmitAll wasmEnv (NewEmitter printAst) = .buffer
      [0, 97, 115, 109, 1, 0, 0, 0, 1, 8, 2, 96, 1, 127, 0, 96, 0, 0, 2, 13, 1, 3, 101, 110,
       118, 5, 112, 114, 105, 110, 116, 0, 0, 3, 2, 1, 1, 5, 3, 1, 0, 1, 6, 6, 1, 127, 1, 65,
       0, 11, 7, 8, 1, 4, 109, 97, 105, 110, 0, 1, 10, 9, 1, 7, 0, 65, 42, 16, 0, 26, 11] := by
  decide

/-- C2, as stated, fails on the `print(42)` module: the first section after
the magic and the version is not the memory section (identifier 5). -/
theorem C2_memory_first_counterexample :
    ¬ ∃ rest, EmitAll wasmEnv (NewEmitter printAst) =
      .buffer ([0x00, 0x61, 0x73, 0x6d] ++ [0x01, 0x00, 0x00, 0x00] ++ 5 :: rest) := by
  rintro ⟨rest, h⟩
  rw [printAst_output] at h
  simp at h

/-- C9, as stated, fails on `f()` with return types `num`, `bad`: the function
declares a return type that is neither `num` nor `i32`, and `EmitAll` returns
a buffer. -/
theorem C9_second_return_type_counterexample :
    (∃ m ∈ twoReturnAst.Modules, ∃ fn ∈ m.Funs, ∃ t ∈ fn.ReturnTypes, typeMap wasmOp t = none) ∧
    EmitAll wasmEnv (NewEmitter twoReturnAst) = .buffer
      [0, 97, 115, 109, 1, 0, 0, 0, 1, 5, 1, 96, 0, 1, 124, 2, 1, 0, 3, 2, 1, 0, 5, 3, 1, 0, 1,
       6, 6, 1, 127, 1, 65, 0, 11, 7, 5, 1, 1, 102, 0, 0, 10, 4, 1, 2, 0, 11] := by
  refine ⟨⟨_, List.mem_singleton.mpr rfl, _, List.mem_singleton.mpr rfl, "bad", ?_, ?_⟩, ?_⟩
  · simp [twoReturnAst]
  · decide
  · decide

/-! ## Type tokens -/

theorem GoMap.mem_set_self {α : Type} (m : GoMap α) (k : String) (v : α) :
    (k, v) ∈ GoMap.set m k v := by
  induction m with
  | nil => simp [GoMap.set]
  | cons hd tl ih =>
    obtain ⟨k', v'⟩ := hd
    by_cases hk : k' = k
    · simp [GoMap.set, hk]
    · simp only [GoMap.set, hk, if_false]
      exact List.mem_cons_of_mem _ ih

theorem GoMap.mem_set_of_ne {α : Type} (m : GoMap α) (k k' : String) (v v' : α)
    (h : (k, v) ∈ m) (hne : k' ≠ k) : (k, v) ∈ GoMap.set m k' v' := by
  induction m with
  | nil => simp at h
  | cons hd tl ih =>
    obtain ⟨k₀, v₀⟩ := hd
    rcases List.mem_cons.mp h with heq | htl
    · have h1 : k₀ = k := (Prod.mk.inj heq).1.symm
      have h2 : k₀ ≠ k' := fun hc => hne (hc.symm.trans h1)
      simp only [GoMap.set, h2, if_false]
      rw [heq]
      exact List.mem_cons_self _ _
    · by_cases hk : k₀ = k'
      · simp only [GoMap.set, hk, if_true]
        exact List.mem_cons_of_mem _ htl
      · simp only [GoMap.set, hk, if_false]
        exact List.mem_cons_of_mem _ (ih htl)

theorem GoMap.eq_or_mem_of_mem_set {α : Type} (m : GoMap α) (k : String) (v : α)
    (x : String × α) (h : x ∈ GoMap.set m k v) : x = (k, v) ∨ x ∈ m := by
  induction m with
  | nil =>
    simp only [GoMap.set, List.mem_singleton] at h
    exact Or.inl h
  | cons hd tl ih =>
    obtain ⟨k₀, v₀⟩ := hd
    by_cases hk : k₀ = k
    · simp only [GoMap.set, hk, if_true] at h
      rcases List.mem_cons.mp h with heq | htl
      · exact Or.inl heq
      · exact Or.inr (List.mem_cons_of_mem _ htl)
    · simp only [GoMap.set, hk, if_false] at h
      rcases List.mem_cons.mp h with heq | htl
      · exact Or.inr (heq ▸ List.mem_cons_self _ _)
      · rcases ih htl with h1 | h2
        · exact Or.inl h1
        · exact Or.inr (List.mem_cons_of_mem _ h2)

theorem mem_registerParams_of_mem (ps : List Param) (i : Nat) (m : GoMap FuncParam)
    (k : String) (v : FuncParam) (h : (k, v) ∈ m) (hne : ∀ q ∈ ps, q.Name ≠ k) :
    (k, v) ∈ registerParams ps i m := by
  induction ps generalizing i m with
  | nil => exact h
  | cons q rest ih =>
    simp only [registerParams]
    apply ih
    · exact GoMap.mem_set_of_ne m k q.Name v _ h (hne q (List.mem_cons_self q rest))
    · exact fun q' hq' => hne q' (List.mem_cons_of_mem q hq')

theorem registerParams_bad (op : Op) (ps : List Param) (i : Nat) (m : GoMap FuncParam)
    (h : HasBadParam op ps) : ∃ kv ∈ registerParams ps i m, typeMap op kv.2.Typ = none := by
  obtain ⟨l₁, p, l₂, hps, hbad, hlater⟩ := h
  subst hps
  induction l₁ generalizing i m with
  | nil =>
    refine ⟨(p.Name, ⟨i, p.Name, p.Typ.Name, 0⟩), ?_, hbad⟩
    simp only [List.nil_append, registerParams]
    exact mem_registerParams_of_mem l₂ (i + 1) _ _ _ (GoMap.mem_set_self m _ _) hlater
  | cons q rest ih =>
    simp only [List.cons_append, registerParams]
    exact ih (i + 1) _

theorem registerParams_good (op : Op) (ps : List Param) (i : Nat) (m : GoMap FuncParam)
    (hm : ∀ kv ∈ m, typeMap op kv.2.Typ ≠ none)
    (hps : ∀ p ∈ ps, typeMap op p.Typ.Name ≠ none) :
    ∀ kv ∈ registerParams ps i m, typeMap op kv.2.Typ ≠ none := by
  induction ps generalizing i m with
  | nil => exact hm
  | cons q rest ih =>
    simp only [registerParams]
    apply ih
    · intro kv hkv
      rcases GoMap.eq_or_mem_of_mem_set m _ _ kv hkv with heq | hmem
      · rw [heq]
        exact hps q (List.mem_cons_self q rest)
      · exact hm kv hmem
    · exact fun p hp => hps p (List.mem_cons_of_mem q hp)

theorem emitParamTypes_bad (op : Op) (fn : FuncData) (l : List (String × FuncParam)) (ts : Bytes)
    (h : ∃ kv ∈ l, typeMap op kv.2.Typ = none) :
    ∃ err, (emitParamTypes op fn l ts).1 = .error err := by
  induction l generalizing ts with
  | nil =>
    obtain ⟨kv, hkv, _⟩ := h
    simp at hkv
  | cons hd tl ih =>
    obtain ⟨k, param⟩ := hd
    cases ht : typeMap op param.Typ with
    | none => exact ⟨.paramType fn.Name param.Name param.Typ, by simp only [emitParamTypes, ht]⟩
    | some t =>
      simp only [emitParamTypes, ht]
      apply ih
      obtain ⟨kv, hkv, hbad⟩ := h
      rcases List.mem_cons.mp hkv with heq | htl
      · rw [heq] at hbad
        simp only [ht] at hbad
        cases hbad
      · exact ⟨kv, htl, hbad⟩

theorem emitParamTypes_good (op : Op) (fn : FuncData) (l : List (String × FuncParam)) (ts : Bytes)
    (h : ∀ kv ∈ l, typeMap op kv.2.Typ ≠ none) : (emitParamTypes op fn l ts).1 = .ok := by
  induction l generalizing ts with
  | nil => rfl
  | cons hd tl ih =>
    obtain ⟨k, param⟩ := hd
    cases ht : typeMap op param.Typ with
    | none => exact absurd ht (h (k, param) (List.mem_cons_self _ _))
    | some t =>
      simp only [emitParamTypes, ht]
      exact ih _ (fun kv hkv => h kv (List.mem_cons_of_mem _ hkv))

theorem EmitTypes_bad (env : Env) (e : Emitter) (name : String) (fn : FuncData)
    (hget : e.funcs.get? name = some fn)
    (h : (∃ kv ∈ fn.Params, typeMap env.op kv.2.Typ = none) ∨
      (fn.ReturnType ≠ "" ∧ typeMap env.op fn.ReturnType = none)) :
    ∃ err, (EmitTypes env e name).1 = .error err := by
  simp only [EmitTypes, hget]
  rcases hres : emitParamTypes env.op fn (env.range fn.Params)
      (e.TypesSection ++ [0x60] ++ [byte fn.Params.length]) with ⟨st, ts⟩
  cases st with
  | error err => exact ⟨err, rfl⟩
  | panic =>
    rcases h with ⟨kv, hkv, hbad⟩ | ⟨hne, hbad⟩
    · obtain ⟨err, herr⟩ := emitParamTypes_bad env.op fn (env.range fn.Params)
        (e.TypesSection ++ [0x60] ++ [byte fn.Params.length])
        ⟨kv, (env.mem_range _ _).mpr hkv, hbad⟩
      rw [hres] at herr
      cases herr
    · by_cases hg : ∀ kv ∈ env.range fn.Params, typeMap env.op kv.2.Typ ≠ none
      · have := emitParamTypes_good env.op fn _
          (e.TypesSection ++ [0x60] ++ [byte fn.Params.length]) hg
        rw [hres] at this
        cases this
      · push_neg at hg
        obtain ⟨err, herr⟩ := emitParamTypes_bad env.op fn (env.range fn.Params)
          (e.TypesSection ++ [0x60] ++ [byte fn.Params.length]) hg
        rw [hres] at herr
        cases herr
  | ok =>
    rcases h with ⟨kv, hkv, hbad⟩ | ⟨hne, hbad⟩
    · obtain ⟨err, herr⟩ := emitParamTypes_bad env.op fn (env.range fn.Params)
        (e.TypesSection ++ [0x60] ++ [byte fn.Params.length])
        ⟨kv, (env.mem_range _ _).mpr hkv, hbad⟩
      rw [hres] at herr
      cases herr
    · exact ⟨.returnType fn.Name fn.ReturnType, by simp only [hne, hbad, ne_eq, not_false_eq_true, if_true]⟩

theorem EmitTypes_good (env : Env) (e : Emitter) (name : String) (fn : FuncData)
    (hget : e.funcs.get? name = some fn)
    (hp : ∀ kv ∈ fn.Params, typeMap env.op kv.2.Typ ≠ none)
    (hr : fn.ReturnType = "" ∨ typeMap env.op fn.ReturnType ≠ none) :
    (EmitTypes env e name).1 = .ok := by
  have hg := emitParamTypes_good env.op fn (env.range fn.Params)
    (e.TypesSection ++ [0x60] ++ [byte fn.Params.length])
    (fun kv hkv => hp kv ((env.mem_range _ _).mp hkv))
  simp only [EmitTypes, hget]
  rcases hres : emitParamTypes env.op fn (env.range fn.Params)
      (e.TypesSection ++ [0x60] ++ [byte fn.Params.length]) with ⟨st, ts⟩
  rw [hres] at hg
  simp only at hg
  subst hg
  by_cases hempty : fn.ReturnType = ""
  · simp only [hempty, ne_eq, not_true_eq_false, if_false]
  · cases ht : typeMap env.op fn.ReturnType with
    | none => exact absurd ht (hr.resolve_left hempty)
    | some t => simp only [hempty, ne_eq, not_false_eq_true, if_true, ht]

theorem emitExternFunc_bad (env : Env) (moduleName : String) (e : Emitter) (a : ExternFunc)
    (h : BadExtern env.op a) : (emitExternFunc env moduleName e a).1 ≠ .ok := by
  have hbad : ∃ err, (EmitTypes env
      { e with
        funcs :=
          e.funcs.set a.Name
            (FuncData.mk e.externFuncsCount a.Name (registerParams a.Parameters 0 [])
              a.ReturnType) }
      a.Name).1 = .error err := by
    apply EmitTypes_bad env _ a.Name _ (GoMap.get?_set_self _ _ _)
    rcases h with hp | hr
    · exact Or.inl (registerParams_bad env.op a.Parameters 0 [] hp)
    · exact Or.inr hr
  obtain ⟨err, herr⟩ := hbad
  simp only [emitExternFunc]
  rcases hres : EmitTypes env
      { e with
        funcs :=
          e.funcs.set a.Name
            (FuncData.mk e.externFuncsCount a.Name (registerParams a.Parameters 0 [])
              a.ReturnType) }
      a.Name with ⟨st, e'⟩
  rw [hres] at herr
  simp only at herr
  subst herr
  simp

theorem registeredReturnType_cons_cons (t t₂ : String) (rest : List String) :
    registeredReturnType (t :: t₂ :: rest) = t := by
  simp [registeredReturnType]

theorem emitFun_bad (env : Env) (e : Emitter) (fn : Fun)
    (h : BadFun env.op fn) : (emitFun env e fn).1 ≠ .ok := by
  have hbad : ∃ err, (EmitTypes env
      { e with
        funcs :=
          e.funcs.set fn.Name
            (FuncData.mk (e.externFuncsCount + e.funcsCount) fn.Name
              (registerParams fn.Parameters 0 []) (registeredReturnType fn.ReturnTypes)) }
      fn.Name).1 = .error err := by
    apply EmitTypes_bad env _ fn.Name _ (GoMap.get?_set_self _ _ _)
    rcases h with hp | ⟨t, t₂, rest, hrt, hne, hbad⟩
    · exact Or.inl (registerParams_bad env.op fn.Parameters 0 [] hp)
    · refine Or.inr ?_
      simp only [hrt, registeredReturnType_cons_cons]
      exact ⟨hne, hbad⟩
  obtain ⟨err, herr⟩ := hbad
  simp only [emitFun]
  rcases hres : EmitTypes env
      { e with
        funcs :=
          e.funcs.set fn.Name
            (FuncData.mk (e.externFuncsCount + e.funcsCount) fn.Name
              (registerParams fn.Parameters 0 []) (registeredReturnType fn.ReturnTypes)) }
      fn.Name with ⟨st, e'⟩
  rw [hres] at herr
  simp only at herr
  subst herr
  simp

theorem emitExternFuncs_bad (env : Env) (moduleName : String) (l : List ExternFunc) (e : Emitter)
    (h : ∃ a ∈ l, BadExtern env.op a) : (emitExternFuncs env moduleName l e).1 ≠ .ok := by
  induction l generalizing e with
  | nil =>
    obtain ⟨a, ha, _⟩ := h
    simp at ha
  | cons hd tl ih =>
    simp only [emitExternFuncs]
    rcases hres : emitExternFunc env moduleName e hd with ⟨st, e'⟩
    cases st with
    | ok =>
      simp only
      apply ih
      obtain ⟨a, ha, hbad⟩ := h
      rcases List.mem_cons.mp ha with heq | htl
      · subst heq
        have := emitExternFunc_bad env moduleName e a hbad
        rw [hres] at this
        exact absurd rfl this
      · exact ⟨a, htl, hbad⟩
    | error err => simp
    | panic => simp

theorem emitFuns_bad (env : Env) (l : List Fun) (e : Emitter)
    (h : ∃ fn ∈ l, BadFun env.op fn) : (emitFuns env l e).1 ≠ .ok := by
  induction l generalizing e with
  | nil =>
    obtain ⟨a, ha, _⟩ := h
    simp at ha
  | cons hd tl ih =>
    simp only [emitFuns]
    rcases hres : emitFun env e hd with ⟨st, e'⟩
    cases st with
    | ok =>
      simp only
      apply ih
      obtain ⟨a, ha, hbad⟩ := h
      rcases List.mem_cons.mp ha with heq | htl
      · subst heq
        have := emitFun_bad env e a hbad
        rw [hres] at this
        exact absurd rfl this
      · exact ⟨a, htl, hbad⟩
    | error err => simp
    | panic => simp

theorem emitModules_bad (env : Env) (ms : List Module) (e : Emitter)
    (h : ∃ m ∈ ms, (∃ a ∈ m.ExternFuncs, BadExtern env.op a) ∨ (∃ fn ∈ m.Funs, BadFun env.op fn)) :
    (emitModules env ms e).1 ≠ .ok := by
  induction ms generalizing e with
  | nil =>
    obtain ⟨a, ha, _⟩ := h
    simp at ha
  | cons hd tl ih =>
    simp only [emitModules]
    rcases hres : emitExternFuncs env hd.Name hd.ExternFuncs e with ⟨st, e'⟩
    cases st with
    | ok =>
      simp only
      rcases hres2 : emitFuns env hd.Funs e' with ⟨st2, e''⟩
      cases st2 with
      | ok =>
        simp only
        apply ih
        obtain ⟨m, hm, hbad⟩ := h
        rcases List.mem_cons.mp hm with heq | htl
        · subst heq
          rcases hbad with hx | hf
          · have := emitExternFuncs_bad env m.Name m.ExternFuncs e hx
            rw [hres] at this
            exact absurd rfl this
          · have := emitFuns_bad env m.Funs e' hf
            rw [hres2] at this
            exact absurd rfl this
        · exact ⟨m, htl, hbad⟩
      | error err => simp
      | panic => simp
    | error err => simp
    | panic => simp

/-- C9 (amended): when some module has an extern declaration or a definition
with a parameter of unrecognised type (one that no later parameter of the same
name replaces), or an extern declaration whose return type is present and
unrecognised, or a definition with two or more return types whose first one is
present and unrecognised, `EmitAll` returns no buffer: it returns an error, or
an earlier body has already crashed. Conversely `EmitTypes` succeeds on a
function that was just registered from parameters whose types are all `num` or
`i32` and a return type that is absent, `num` or `i32`. -/
theorem C9_unrecognised_type (env : Env) (ast : Ast) (hbad : BadAst env.op ast)
    (e : Emitter) (name : String) (index : Nat) (params : List Param) (ret : String)
    (hparams : ∀ p ∈ params, typeMap env.op p.Typ.Name ≠ none)
    (hret : ret = "" ∨ typeMap env.op ret ≠ none) :
    ((∃ err, EmitAll env (NewEmitter ast) = .error err) ∨
      EmitAll env (NewEmitter ast) = .panic) ∧
    (EmitTypes env
      { e with
        funcs := e.funcs.set name (FuncData.mk index name (registerParams params 0 []) ret) }
      name).1 = .ok := by
  constructor
  · have h := emitModules_bad env ast.Modules (EmitRuntime env (EmitMemory (NewEmitter ast))) hbad
    have ht : emitTree env (NewEmitter ast) =
        emitModules env ast.Modules (EmitRuntime env (EmitMemory (NewEmitter ast))) := rfl
    rw [← ht] at h
    simp only [EmitAll]
    rcases hres : emitTree env (NewEmitter ast) with ⟨st, e'⟩
    rw [hres] at h
    cases st with
    | ok => exact absurd rfl h
    | error err => exact Or.inl ⟨err, rfl⟩
    | panic => exact Or.inr rfl
  · apply EmitTypes_good env _ name _ (GoMap.get?_set_self _ _ _)
    · exact registerParams_good env.op params 0 [] (fun kv hkv => by simp at hkv) hparams
    · exact hret

/-- C9 (amended) on `f(x: bad)`, and on registering `g(x: i32)` returning `num`. -/
theorem C9_unrecognised_type_witness :
    BadAst wasmEnv.op badParamAst ∧
    (∀ p ∈ [Param.mk "x" ⟨"i32"⟩], typeMap wasmEnv.op p.Typ.Name ≠ none) ∧
    ("num" = "" ∨ typeMap wasmEnv.op "num" ≠ none) ∧
    ((∃ err, EmitAll wasmEnv (NewEmitter badParamAst) = .error err) ∨
      EmitAll wasmEnv (NewEmitter badParamAst) = .panic) ∧
    (EmitTypes wasmEnv
      { NewEmitter emptyAst with
        funcs := (NewEmitter emptyAst).funcs.set "g"
          (FuncData.mk 0 "g" (registerParams [Param.mk "x" ⟨"i32"⟩] 0 []) "num") }
      "g").1 = .ok :=
  have hbad : BadAst wasmEnv.op badParamAst :=
    ⟨⟨"m", [], [⟨"f", [⟨"x", ⟨"bad"⟩⟩], [], []⟩]⟩, List.mem_singleton.mpr rfl,
      Or.inr ⟨⟨"f", [⟨"x", ⟨"bad"⟩⟩], [], []⟩, List.mem_singleton.mpr rfl,
        Or.inl ⟨[], ⟨"x", ⟨"bad"⟩⟩, [], rfl, by decide, by simp⟩⟩⟩
  have hp : ∀ p ∈ [Param.mk "x" ⟨"i32"⟩], typeMap wasmEnv.op p.Typ.Name ≠ none := by
    intro p hp
    rw [List.mem_singleton.mp hp]
    decide
  have hr : "num" = "" ∨ typeMap wasmEnv.op "num" ≠ none := Or.inr (by decide)
  ⟨hbad, hp, hr,
    C9_unrecognised_type wasmEnv badParamAst hbad (NewEmitter emptyAst) "g" 0
      [Param.mk "x" ⟨"i32"⟩] "num" hp hr⟩

/-- C2 (amended): when `EmitAll` succeeds, the output is the magic
`00 61 73 6d`, the version `01 00 00 00`, and then seven sections whose
identifier bytes come in the order types, imports, functions, memory, globals,
exports, code (1, 2, 3, 5, 6, 7, 10 in the reference table), each followed by
its length field, its count byte and the data the pass collected for it. -/
theorem C2_section_order (env : Env) (ast : Ast) (out : Bytes)
    (h : EmitAll env (NewEmitter ast) = .buffer out) :
    ∃ e, emitTree env (NewEmitter ast) = (.ok, e) ∧
      out = [0x00, 0x61, 0x73, 0x6d] ++ [0x01, 0x00, 0x00, 0x00]
        ++ [env.op.SECTION_TYPES, byte (e.TypesSection.length + 1),
            byte (e.externFuncsCount + e.funcsCount)] ++ e.TypesSection
        ++ [env.op.SECTION_IMPORTS, byte (e.ImportsSection.length + 1),
            byte e.externFuncsCount] ++ e.ImportsSection
        ++ [env.op.SECTION_FUNCS, byte (e.FuncsSection.length + 1), byte e.funcsCount]
        ++ e.FuncsSection
        ++ [env.op.SECTION_MEMORY, byte (e.MemorySection.length + 1), 0x01] ++ e.MemorySection
        ++ [env.op.SECTION_GLOBALS, byte (e.GlobalsSection.length + 1), byte e.globalsCount]
        ++ e.GlobalsSection
        ++ [env.op.SECTION_EXPORTS, byte (e.ExportsSection.length + 1), byte e.funcsCount]
        ++ e.ExportsSection
        ++ [env.op.SECTION_FUNCS_BODY] ++ sleb128 5 (int32 (e.FuncsBodySection.length + 1))
        ++ [byte e.funcsCount] ++ e.FuncsBodySection := by
  simp only [EmitAll] at h
  rcases hres : emitTree env (NewEmitter ast) with ⟨st, e⟩
  rw [hres] at h
  cases st with
  | ok =>
    simp only [Output.buffer.injEq] at h
    refine ⟨e, rfl, ?_⟩
    rw [← h]
    simp only [writeSections, preamble, encodeSleb128, List.append_assoc]
  | error err => simp at h
  | panic => simp at h

/-- C2 (amended) on the `print(42)` module under the reference table. -/
theorem C2_section_order_witness :
    ∃ e, emitTree wasmEnv (NewEmitter printAst) = (.ok, e) ∧
      [0, 97, 115, 109, 1, 0, 0, 0, 1, 8, 2, 96, 1, 127, 0, 96, 0, 0, 2, 13, 1, 3, 101, 110,
       118, 5, 112, 114, 105, 110, 116, 0, 0, 3, 2, 1, 1, 5, 3, 1, 0, 1, 6, 6, 1, 127, 1, 65,
       0, 11, 7, 8, 1, 4, 109, 97, 105, 110, 0, 1, 10, 9, 1, 7, 0, 65, 42, 16, 0, 26, 11] =
        [0x00, 0x61, 0x73, 0x6d] ++ [0x01, 0x00, 0x00, 0x00]
        ++ [wasmEnv.op.SECTION_TYPES, byte (e.TypesSection.length + 1),
            byte (e.externFuncsCount + e.funcsCount)] ++ e.TypesSection
        ++ [wasmEnv.op.SECTION_IMPORTS, byte (e.ImportsSection.length + 1),
            byte e.externFuncsCount] ++ e.ImportsSection
        ++ [wasmEnv.op.SECTION_FUNCS, byte (e.FuncsSection.length + 1), byte e.funcsCount]
        ++ e.FuncsSection
        ++ [wasmEnv.op.SECTION_MEMORY, byte (e.MemorySection.length + 1), 0x01]
        ++ e.MemorySection
        ++ [wasmEnv.op.SECTION_GLOBALS, byte (e.GlobalsSection.length + 1), byte e.globalsCount]
        ++ e.GlobalsSection
        ++ [wasmEnv.op.SECTION_EXPORTS, byte (e.ExportsSection.length + 1), byte e.funcsCount]
        ++ e.ExportsSection
        ++ [wasmEnv.op.SECTION_FUNCS_BODY]
        ++ sleb128 5 (int32 (e.FuncsBodySection.length + 1))
        ++ [byte e.funcsCount] ++ e.FuncsBodySection :=
  C2_section_order wasmEnv printAst _ printAst_output

/-! ## Evaluations for the later claims -/

/-- C16: for `g(a: num, b: i32)` the type record depends on the order in which
the `range` statement visits the parameter table: when `b` is visited first
the record is `0x60 2 I32 F64 0x00`, not `0x60 2 F64 I32 0x00`. -/
theorem C16_type_record_follows_map_order :
    (EmitTypes revEnv stateG2 "g").1 = .ok ∧
    (EmitTypes revEnv stateG2 "g").2.TypesSection = [0x60, 2, wasmOp.I32, wasmOp.F64, 0x00] ∧
    (EmitTypes wasmEnv stateG2 "g").2.TypesSection = [0x60, 2, wasmOp.F64, wasmOp.I32, 0x00] := by
  decide

/-- C17: for `g() + 1` the operator of the chain is lowered twice: after
`CALL 0` the buffer holds `F64_CONST 1.0 F64_ADD` two times. -/
theorem C17_chain_lowered_twice :
    (emitExpression wasmEnv "f"
      (.node (some "+") (some (argsLit [])) (.node none (some (numLit f1)) .nil))
      stateCalls [] none (some (refLit "g"))).status = .ok ∧
    (emitExpression wasmEnv "f"
      (.node (some "+") (some (argsLit [])) (.node none (some (numLit f1)) .nil))
      stateCalls [] none (some (refLit "g"))).buffer =
      [wasmOp.CALL, 0] ++ ([wasmOp.F64_CONST] ++ float64ToByte f1 ++ [wasmOp.F64_ADD])
        ++ ([wasmOp.F64_CONST] ++ float64ToByte f1 ++ [wasmOp.F64_ADD]) := by
  decide

/-- C18: for `print(64)`, `print(128)` and `print(-1)` with `print(x: i32)` the
argument is `I32_CONST` followed by the single byte `byte(int32(n))` (64, 128,
255), which is not the signed LEB128 form of `n` (192 0, 128 1, 127); for
`f(64)` with `f(x: num)` it is `F64_CONST` and the eight float bytes. -/
theorem C18_i32_argument_is_one_byte :
    (emitExpression wasmEnv "f" (oneArg (numLit f64lit)) stateCalls [] none
      (some (refLit "print"))).buffer = [wasmOp.I32_CONST, 64, wasmOp.CALL, 1] ∧
    (emitExpression wasmEnv "f" (oneArg (numLit f128lit)) stateCalls [] none
      (some (refLit "print"))).buffer = [wasmOp.I32_CONST, 128, wasmOp.CALL, 1] ∧
    (emitExpression wasmEnv "f" (oneArg (numLit fneg1)) stateCalls [] none
      (some (refLit "print"))).buffer = [wasmOp.I32_CONST, 255, wasmOp.CALL, 1] ∧
    sleb128 5 (int32OfFloat64 f64lit) = [192, 0] ∧
    sleb128 5 (int32OfFloat64 f128lit) = [128, 1] ∧
    sleb128 5 (int32OfFloat64 fneg1) = [127] ∧
    (emitExpression wasmEnv "f" (oneArg (numLit f64lit)) stateCalls [] none
      (some (refLit "f"))).buffer =
      [wasmOp.F64_CONST] ++ float64ToByte f64lit ++ [wasmOp.CALL, 2] := by
  decide

/-- C20: three inputs on which `emitExpression` dereferences a nil pointer:
the identifier `g` of a registered function with no right-hand node
(`r.Left.Params` with `r` nil), and a node without operator whose right-hand
literal is the number 1 or the parameter `x` (`*operation` with `operation`
nil). -/
theorem C20_nil_dereferences :
    (emitExpression wasmEnv "f" .nil stateCalls [] none (some (refLit "g"))).status = .panic ∧
    (emitExpression wasmEnv "f" (.node none (some (numLit f1)) .nil) stateCalls [] none
      none).status = .panic ∧
    (emitExpression wasmEnv "f" (.node none (some (refLit "x")) .nil) stateCalls [] none
      none).status = .panic := by
  decide

/-! ## Calls -/

theorem emitArgConst_of_no_const (env : Env) (callFunc : FuncData) (i : Nat) (b : Bytes)
    (v : Literal) (hn : v.Num = none) (hs : v.Str = none) :
    emitArgConst env callFunc i b v = b := by
  simp only [emitArgConst, hn, hs]
  cases List.find? (fun kp => decide (i = kp.2.Index)) (env.range callFunc.Params) with
  | none => rfl
  | some kp => rfl

theorem emitString_ptr (env : Env) (e : Emitter) (b : Bytes) (s : String) :
    (emitString env e b s).2.2 = 0 := by
  simp only [emitString]

/-- C12: in an emitter where the caller `f` and a function `g` with a
one-entry parameter table are registered, lowering `g(x)` (no chained
operator): when `x` is a parameter of `f`, succeeds and appends exactly
`GET_LOCAL`, the index byte of `x`, `CALL`, the index byte of `g` (the indices
themselves when they are below 256); when `x` is not a parameter of `f`,
returns an error and appends nothing. -/
theorem C12_call_with_parameter (env : Env) (e : Emitter) (buf : Bytes) (f g x : String)
    (caller callFunc : FuncData)
    (hf : e.funcs.get? f = some caller) (hg : e.funcs.get? g = some callFunc)
    (hone : callFunc.Params.length = 1) :
    (∀ p, caller.Params.get? x = some p →
      emitExpression env f (oneArg (refLit x)) e buf none (some (refLit g)) =
        ⟨.ok, e, buf ++ [env.op.GET_LOCAL, byte p.Index, env.op.CALL, byte callFunc.Index]⟩ ∧
      (p.Index < 256 → callFunc.Index < 256 →
        emitExpression env f (oneArg (refLit x)) e buf none (some (refLit g)) =
          ⟨.ok, e, buf ++ [env.op.GET_LOCAL, p.Index, env.op.CALL, callFunc.Index]⟩)) ∧
    (caller.Params.get? x = none →
      emitExpression env f (oneArg (refLit x)) e buf none (some (refLit g)) =
        ⟨.error (.unknownVariable f callFunc.Name x), e, buf⟩) := by
  have hs : emitCallStrings env g [refLit x] 0 e buf = (e, buf) :=
    emitCallStrings_of_no_string env _ _ _ _ _ (by simp [refLit, Literal.Str])
  have hpre : emitExpression env f (oneArg (refLit x)) e buf none (some (refLit g)) =
      (match emitCallArgs env f callFunc [refLit x] 0 e buf with
        | ⟨.ok, e, buffer⟩ => ⟨.ok, e, buffer ++ [env.op.CALL] ++ [byte callFunc.Index]⟩
        | res => res) := by
    simp only [emitExpression, oneArg]
    simp only [emitExpressionBody, emitLeftNum, refLit, argsLit, Literal.Num, Option.bind]
    simp only [emitRightNum, RightView.left, Literal.Num, Option.bind]
    simp only [emitLeftReference, Literal.Reference, Option.bind]
    simp only [emitCall, hg, Literal.Params, hone, List.length_singleton, ne_eq,
      not_true_eq_false, if_false]
    have hs' := hs
    simp only [refLit] at hs'
    simp only [hs', hg]
    rcases hres : emitCallArgs env f callFunc [Literal.mk none none (some x) []] 0 e buf
      with ⟨st, e', b'⟩
    cases st <;>
      simp [emitRightReference, RightView.left, Literal.Reference, emitChain]
  constructor
  · intro p hp
    have hmain : emitExpression env f (oneArg (refLit x)) e buf none (some (refLit g)) =
        ⟨.ok, e, buf ++ [env.op.GET_LOCAL, byte p.Index, env.op.CALL, byte callFunc.Index]⟩ := by
      rw [hpre]
      simp only [emitCallArgs, emitArgReference, refLit, Literal.Reference, hf, hp]
      rw [emitArgConst_of_no_const env callFunc 0 _ (Literal.mk none none (some x) []) rfl rfl]
      simp
    refine ⟨hmain, fun hp256 hg256 => ?_⟩
    rw [hmain]
    simp [byte, Nat.mod_eq_of_lt hp256, Nat.mod_eq_of_lt hg256]
  · intro hp
    rw [hpre]
    simp only [emitCallArgs, emitArgReference, refLit, Literal.Reference, hf, hp]

/-- C12 on `print(x)` in `f(x: num)` under the reference table. -/
theorem C12_call_with_parameter_witness :
    stateCalls.funcs.get? "f" = some ⟨2, "f", [("x", ⟨0, "x", "num", 0⟩)], ""⟩ ∧
    stateCalls.funcs.get? "print" = some ⟨1, "print", [("x", ⟨0, "x", "i32", 0⟩)], ""⟩ ∧
    emitExpression wasmEnv "f" (oneArg (refLit "x")) stateCalls [] none (some (refLit "print")) =
      ⟨.ok, stateCalls, [] ++ [wasmOp.GET_LOCAL, 0, wasmOp.CALL, 1]⟩ :=
  ⟨rfl, rfl,
    ((C12_call_with_parameter wasmEnv stateCalls [] "f" "print" "x"
      ⟨2, "f", [("x", ⟨0, "x", "num", 0⟩)], ""⟩ ⟨1, "print", [("x", ⟨0, "x", "i32", 0⟩)], ""⟩
      rfl rfl rfl).1 ⟨0, "x", "num", 0⟩ rfl).2 (by decide) (by decide)⟩

/-- C15: in an emitter where `g` is registered with the one-entry parameter
table of a single declared parameter (index 0), lowering `g(s)` for a string
literal `s` succeeds and appends exactly the bytes `emitString` produces for
`s`, then `I32_CONST 0`, then `CALL` and the index byte of `g`; the pointer
`emitString` returns is 0 for every string and every emitter. -/
theorem C15_call_with_string (env : Env) (e : Emitter) (buf : Bytes) (f g s : String)
    (callFunc : FuncData) (k : String) (p : FuncParam)
    (hg : e.funcs.get? g = some callFunc) (hparams : callFunc.Params = [(k, p)])
    (hidx : p.Index = 0) :
    (emitExpression env f (oneArg (strLit s)) e buf none (some (refLit g))).status = .ok ∧
    (emitExpression env f (oneArg (strLit s)) e buf none (some (refLit g))).buffer =
      (emitString env e buf s).2.1 ++ [env.op.I32_CONST, 0] ++ [env.op.CALL, byte callFunc.Index] ∧
    (∀ (e' : Emitter) (b' : Bytes) (s' : String), (emitString env e' b' s').2.2 = 0) := by
  have hfind : List.find? (fun kp : String × FuncParam => decide (0 = kp.2.Index))
      [(k, p)] = some (k, p) := by
    simp [List.find?, hidx]
  have hfind' : ∀ q : FuncParam, q.Index = 0 →
      List.find? (fun kp : String × FuncParam => decide (0 = kp.2.Index)) [(k, q)] = some (k, q) := by
    intro q hq
    simp [List.find?, hq]
  refine ⟨?_, ?_, fun e' b' s' => emitString_ptr env e' b' s'⟩
  all_goals
    simp only [emitExpression, oneArg]
    simp only [emitExpressionBody, emitLeftNum, refLit, argsLit, strLit, Literal.Num, Option.bind]
    simp only [emitRightNum, RightView.left, Literal.Num, Option.bind]
    simp only [emitLeftReference, Literal.Reference, Option.bind]
    simp only [emitCall, hg, Literal.Params, hparams, List.length_singleton, ne_eq,
      not_true_eq_false, if_false]
    simp only [emitCallStrings, hg, hparams, Env.range_singleton, hfind, Literal.Str]
    rcases hs : emitString env e buf s with ⟨e1, b1, ptr⟩
    simp only [GoMap.get?_set_self, GoMap.set, if_true]
    simp only [emitCallArgs, emitArgReference, emitArgConst, Literal.Reference, Literal.Num,
      Literal.Str, Env.range_singleton, hfind' _ hidx]
    have hptr : ptr = 0 := by
      have := emitString_ptr env e buf s
      rw [hs] at this
      exact this
    simp [emitRightReference, RightView.left, Literal.Reference, emitChain, hptr, byte, hidx]

/-- C15 on `print("hi")` with `print(x: i32)` under the reference table. -/
theorem C15_call_with_string_witness :
    stateCalls.funcs.get? "print" = some ⟨1, "print", [("x", ⟨0, "x", "i32", 0⟩)], ""⟩ ∧
    (emitExpression wasmEnv "f" (oneArg (strLit "hi")) stateCalls [] none
      (some (refLit "print"))).buffer =
      (emitString wasmEnv stateCalls [] "hi").2.1 ++ [wasmOp.I32_CONST, 0] ++ [wasmOp.CALL, byte 1] :=
  ⟨rfl, (C15_call_with_string wasmEnv stateCalls [] "f" "print" "hi"
    ⟨1, "print", [("x", ⟨0, "x", "i32", 0⟩)], ""⟩ "x" ⟨0, "x", "i32", 0⟩ rfl rfl rfl).2.1⟩

/-! ## Strings -/

theorem padString_eq (d : Bytes) : padString d = d ++ specPadding d.length := by
  have h : d.length % 4 = 0 ∨ d.length % 4 = 1 ∨ d.length % 4 = 2 ∨ d.length % 4 = 3 := by omega
  rcases h with h | h | h | h
  · have h1 : ¬ d.length % 4 = 1 := by omega
    have h2 : ¬ d.length % 4 = 2 := by omega
    have h3 : ¬ d.length % 4 = 3 := by omega
    simp [padString, specPadding, h, h1, h2, h3]
  · have h2 : (d.length + 1) % 4 = 2 := by omega
    have h3 : (d.length + 1 + 1) % 4 = 3 := by omega
    simp [padString, specPadding, h, h2, h3]
  · have h1 : ¬ d.length % 4 = 1 := by omega
    have h3 : (d.length + 1) % 4 = 3 := by omega
    simp [padString, specPadding, h, h3]
  · have h1 : ¬ d.length % 4 = 1 := by omega
    have h2 : ¬ d.length % 4 = 2 := by omega
    simp [padString, specPadding, h]

theorem specPadding_length (n : Nat) :
    (n + (specPadding n).length) % 4 = 0 ∧ (specPadding n).length < 4 := by
  have h : n % 4 = 0 ∨ n % 4 = 1 ∨ n % 4 = 2 ∨ n % 4 = 3 := by omega
  rcases h with h | h | h | h
  · simp [specPadding, h]
  · simp [specPadding, h]
    omega
  · simp [specPadding, h]
    omega
  · simp [specPadding, h]
    omega

theorem emitStore_first (env : Env) (e : Emitter) (b : Bytes) (v : Int)
    (h : e.initial = false) :
    emitStore env e b v = ({ e with initial := true }, b ++ storeSeq env.op 0 v) := by
  simp [emitStore, emitHeapNext, h, storeSeq, encodeSleb128, byte]

theorem emitStore_later (env : Env) (e : Emitter) (b : Bytes) (v : Int)
    (h : e.initial = true) :
    emitStore env e b v = (e, b ++ storeSeq env.op 4 v) := by
  simp [emitStore, emitHeapNext, h, storeSeq, encodeSleb128, byte]

theorem emitStringWords_append (env : Env) (data : Bytes) (l₁ l₂ : List Nat) (e : Emitter)
    (b : Bytes) :
    emitStringWords env data (l₁ ++ l₂) e b =
      emitStringWords env data l₂ (emitStringWords env data l₁ e b).1
        (emitStringWords env data l₁ e b).2 := by
  induction l₁ generalizing e b with
  | nil => rfl
  | cons i rest ih =>
    simp only [List.cons_append, emitStringWords]
    split
    · exact ih _ _
    · exact ih _ _

theorem emitStringWords_range (env : Env) (data : Bytes) (m : Nat) (e : Emitter) (b : Bytes)
    (h : e.initial = true) :
    emitStringWords env data (List.range (4 * m)) e b =
      (e, b ++ (List.range m).flatMap (fun k => storeSeq env.op 4 (specWord data k))) := by
  induction m with
  | zero => simp [emitStringWords]
  | succ m ih =>
    have hr : List.range (4 * (m + 1)) =
        List.range (4 * m) ++ [4 * m, 4 * m + 1, 4 * m + 2, 4 * m + 3] := by
      have : 4 * (m + 1) = 4 * m + 4 := by ring
      rw [this, List.range_add]
      simp [List.range_succ]
    have h1 : ¬ (4 * m + 1) % 4 = 0 := by omega
    have h2 : ¬ (4 * m + 1 + 1) % 4 = 0 := by omega
    have h3 : ¬ (4 * m + 2 + 1) % 4 = 0 := by omega
    have h4 : (4 * m + 3 + 1) % 4 = 0 := by omega
    have h5 : 4 * m + 3 + 1 - 4 = 4 * m := by omega
    rw [hr, emitStringWords_append, ih]
    simp only [emitStringWords, h1, h2, h3, h4, h5, if_true, if_false]
    rw [emitStore_later env e _ _ h]
    simp [List.range_succ, List.flatMap_append, specWord]

/-- C14: `emitString` pads the bytes of `s` with the filler of the spec (the
padded length is the least multiple of 4 not below the length), appends the
store of the marker 8, the store of the padded length and one store per
little-endian word, in this order, sets the emitter's `initial` flag, and
returns 0. Each store sequence is `GET_GLOBAL 0`, `I32_CONST d`, `I32_ADD`,
`SET_GLOBAL 0`, `GET_GLOBAL 0`, `I32_CONST`, the signed LEB128 of the value,
`I32_STORE 2 0`, with `d = 0` only for the first store sequence of an emitter
whose flag is not yet set and `d = 4` otherwise. -/
theorem C14_emitString (env : Env) (e : Emitter) (b : Bytes) (s : String) :
    emitString env e b s =
      ({ e with initial := true }, b ++ specString env.op (if e.initial = false then 0 else 4)
        (goBytes s), 0) ∧
    (goBytes s ++ specPadding (goBytes s).length).length % 4 = 0 ∧
    (goBytes s).length ≤ (goBytes s ++ specPadding (goBytes s).length).length ∧
    (goBytes s ++ specPadding (goBytes s).length).length < (goBytes s).length + 4 ∧
    ((goBytes s ++ specPadding (goBytes s).length).length < 2147483648 →
      int32 (goBytes s ++ specPadding (goBytes s).length).length =
        (goBytes s ++ specPadding (goBytes s).length).length) := by
  have hlen := specPadding_length (goBytes s).length
  have hmod : (goBytes s ++ specPadding (goBytes s).length).length % 4 = 0 := by
    rw [List.length_append]
    exact hlen.1
  refine ⟨?_, hmod, ?_, ?_, ?_⟩
  · have hdiv : (goBytes s ++ specPadding (goBytes s).length).length =
        4 * ((goBytes s ++ specPadding (goBytes s).length).length / 4) := by omega
    simp only [emitString, padString_eq]
    by_cases hi : e.initial = false
    · rw [emitStore_first env e b 8 hi]
      simp only
      rw [emitStore_later env _ _ _ rfl]
      simp only
      rw [hdiv, emitStringWords_range env _ _ _ _ rfl, ← hdiv]
      simp [specString, hi, List.append_assoc]
    · have hi' : e.initial = true := by simpa using hi
      rw [emitStore_later env e b 8 hi']
      simp only
      rw [emitStore_later env _ _ _ hi']
      simp only
      rw [hdiv, emitStringWords_range env _ _ _ _ hi', ← hdiv]
      have he : ({ e with initial := true } : Emitter) = e := by
        cases e
        simp at hi'
        simp [hi']
      simp [specString, hi', he, List.append_assoc]
  · rw [List.length_append]
    omega
  · rw [List.length_append]
    omega
  · intro hlt
    simp only [int32]
    omega

/-- C14 on the string `hi` in a fresh emitter under the reference table. -/
theorem C14_emitString_witness :
    emitString wasmEnv (NewEmitter emptyAst) [] "hi" =
      ({ NewEmitter emptyAst with initial := true },
        [] ++ specString wasmEnv.op (if (NewEmitter emptyAst).initial = false then 0 else 4)
          (goBytes "hi"), 0) :=
  (C14_emitString wasmEnv (NewEmitter emptyAst) [] "hi").1

/-! ## Function bodies -/

theorem emitStatements_of_lowered (env : Env) (name : String) (n : Nat) (e e' : Emitter)
    (body : List Block) (cs : List Bytes) (h : Lowered env name e body cs e') :
    ∀ (i : Nat) (buf : Bytes), i + body.length = n →
      emitStatements env name n body i e buf = ⟨.ok, e', buf ++ joinWithDrop env.op cs⟩ := by
  induction h with
  | nil e =>
    intro i buf _
    simp [emitStatements, joinWithDrop]
  | cons e e₁ e₂ operator left right c rest cs hexp hrest ih =>
    intro i buf hi
    simp only [emitStatements, hexp]
    cases hrest with
    | nil =>
      have hlast : i = n - 1 := by
        simp only [List.length_singleton] at hi
        omega
      simp [emitStatements, joinWithDrop, hlast]
    | cons e₃ e₄ e₅ operator' left' right' c' rest' cs' hexp' hrest' =>
      have hnot : i ≠ n - 1 := by
        simp only [List.length_cons] at hi
        omega
      have hi' : (i + 1) + (Block.mk (.node operator' left' right') :: rest').length = n := by
        simp only [List.length_cons] at hi ⊢
        omega
      simp only [hnot, ne_eq, not_false_eq_true, if_true]
      rw [ih (i + 1) _ hi']
      simp [joinWithDrop, List.append_assoc]

/-- C13: when the statements of a body (of one statement or more; the empty
body is covered as well) lower successfully to the
byte strings `c1 .. cn`, `EmitFuncBody` appends to the code section the signed
LEB128 of the size, then `0x00`, `c1 DROP c2 DROP .. cn`, one more `DROP`
exactly when the registered return type of the function is empty, and `END`;
the encoded size is the number of bytes that follow it (below 2^31); for one
statement and no return type these bytes are `0x00 c1 DROP END`. -/
theorem C13_func_body (env : Env) (e e' : Emitter) (name : String) (body : List Block)
    (cs : List Bytes) (fn : FuncData)
    (hlow : Lowered env name e body cs e')
    (hfn : e'.funcs.get? name = some fn) :
    EmitFuncBody env e name body =
      (.ok, { e' with
        FuncsBodySection :=
          e'.FuncsBodySection
            ++ sleb128 5 (int32 (bodyPayload env.op cs fn.ReturnType).length)
            ++ bodyPayload env.op cs fn.ReturnType }) ∧
    ((bodyPayload env.op cs fn.ReturnType).length < 2147483648 →
      int32 (bodyPayload env.op cs fn.ReturnType).length =
        (bodyPayload env.op cs fn.ReturnType).length) ∧
    (∀ c, cs = [c] → fn.ReturnType = "" →
      bodyPayload env.op cs fn.ReturnType = [0x00] ++ c ++ [env.op.DROP] ++ [env.op.END]) := by
  refine ⟨?_, ?_, ?_⟩
  · have hs := emitStatements_of_lowered env name body.length e e' body cs hlow 0 [0x00]
      (by simp)
    simp only [EmitFuncBody, hs, hfn]
    by_cases hr : fn.ReturnType = ""
    · have harith : ((joinWithDrop env.op cs).length : Int) + 1 + 1 + 1 =
          ((joinWithDrop env.op cs).length : Int) + 2 + 1 := by ring
      simp [bodyPayload, hr, encodeSleb128, List.append_assoc, harith]
    · simp [bodyPayload, hr, encodeSleb128, List.append_assoc]
  · intro hlt
    simp only [int32]
    omega
  · intro c hc hr
    simp [bodyPayload, hc, hr, joinWithDrop]

theorem emit_number_statement (env : Env) (name : String) (e : Emitter) (buf : Bytes)
    (f : Float64) :
    emitExpression env name .nil e buf none (some (numLit f)) =
      ⟨.ok, e, buf ++ ([env.op.F64_CONST] ++ float64ToByte f)⟩ := by
  simp only [emitExpression]
  simp only [emitExpressionBody, emitLeftNum, numLit, Literal.Num, Option.bind]
  simp only [emitRightNum, RightView.left, Option.bind]
  simp only [emitLeftReference, Literal.Reference, Option.bind]
  simp [emitRightReference, RightView.left, emitChain]

/-- C13 on the body `1` of `f(x: num)` (no return type) under the reference
table. -/
theorem C13_func_body_witness :
    stateF.funcs.get? "f" = some ⟨0, "f", [("x", ⟨0, "x", "num", 0⟩)], ""⟩ ∧
    EmitFuncBody wasmEnv stateF "f" [oneStmt] =
      (.ok, { stateF with
        FuncsBodySection :=
          stateF.FuncsBodySection
            ++ sleb128 5 (int32 (bodyPayload wasmEnv.op
                [[wasmEnv.op.F64_CONST] ++ float64ToByte f1] "").length)
            ++ bodyPayload wasmEnv.op [[wasmEnv.op.F64_CONST] ++ float64ToByte f1] "" }) :=
  ⟨rfl,
    (C13_func_body wasmEnv stateF stateF "f" [oneStmt]
      [[wasmEnv.op.F64_CONST] ++ float64ToByte f1] ⟨0, "f", [("x", ⟨0, "x", "num", 0⟩)], ""⟩
      (Lowered.cons stateF stateF stateF none (some (numLit f1)) .nil _ [] []
        (fun buf => emit_number_statement wasmEnv "f" stateF buf f1) (Lowered.nil stateF))
      rfl).1⟩

/-! ## The registry during lowering -/

theorem GoMap.get?_set {α : Type} (m : GoMap α) (k k' : String) (v : α) :
    (GoMap.set m k v).get? k' = if k = k' then some v else m.get? k' := by
  induction m with
  | nil => simp [GoMap.set, GoMap.get?]
  | cons hd tl ih =>
    obtain ⟨k₀, v₀⟩ := hd
    by_cases hk : k₀ = k
    · subst hk
      by_cases hk' : k₀ = k'
      · simp [GoMap.set, GoMap.get?, hk']
      · simp [GoMap.set, GoMap.get?, hk']
    · by_cases hk' : k₀ = k'
      · subst hk'
        have hne : ¬ k = k₀ := fun h => hk h.symm
        simp [GoMap.set, GoMap.get?, hk, hne]
      · simp [GoMap.set, GoMap.get?, hk, hk', ih]

theorem SameKeys.refl (e : Emitter) : SameKeys e e := fun _ => rfl

theorem SameKeys.trans {e₁ e₂ e₃ : Emitter} (h₁ : SameKeys e₁ e₂) (h₂ : SameKeys e₂ e₃) :
    SameKeys e₁ e₃ := fun g => (h₂ g).trans (h₁ g)

theorem SameKeys.of_funcs_eq {e e' : Emitter} (h : e'.funcs = e.funcs) : SameKeys e e' :=
  fun g => by rw [h]

theorem emitStore_funcs (env : Env) (e : Emitter) (b : Bytes) (v : Int) :
    (emitStore env e b v).1.funcs = e.funcs := by
  simp only [emitStore, emitHeapNext]
  split <;> rfl

theorem emitStringWords_funcs (env : Env) (data : Bytes) (l : List Nat) (e : Emitter) (b : Bytes) :
    (emitStringWords env data l e b).1.funcs = e.funcs := by
  induction l generalizing e b with
  | nil => rfl
  | cons i rest ih =>
    simp only [emitStringWords]
    split
    · rw [ih]
      exact emitStore_funcs env e b _
    · exact ih e b

theorem emitString_funcs (env : Env) (e : Emitter) (b : Bytes) (s : String) :
    (emitString env e b s).1.funcs = e.funcs := by
  simp only [emitString]
  rw [emitStringWords_funcs, emitStore_funcs, emitStore_funcs]

theorem emitCallStrings_sameKeys (env : Env) (callee : String) (args : List Literal) (i : Nat)
    (e : Emitter) (b : Bytes) : SameKeys e (emitCallStrings env callee args i e b).1 := by
  induction args generalizing i e b with
  | nil => exact SameKeys.refl e
  | cons v rest ih =>
    simp only [emitCallStrings]
    cases hget : e.funcs.get? callee with
    | none => exact ih (i + 1) e b
    | some callFunc =>
      simp only
      cases hfind : List.find? (fun kp => decide (i = kp.2.Index)) (env.range callFunc.Params) with
      | none => exact ih (i + 1) e b
      | some kp =>
        cases hstr : v.Str with
        | none => exact ih (i + 1) e b
        | some str =>
          simp only
          refine SameKeys.trans ?_ (ih (i + 1) _ _)
          intro g
          simp only [GoMap.get?_set, emitString_funcs]
          by_cases hg : callee = g
          · subst hg
            simp [hget]
          · simp [hg]

theorem emitRightNum_e (env : Env) (e : Emitter) (buffer : Bytes) (funcName : String)
    (operation : Option String) (r : RightView) :
    (emitRightNum env e buffer funcName operation r).e = e := by
  simp only [emitRightNum]
  split
  · split <;> rfl
  · rfl

theorem emitRightReference_e (env : Env) (e : Emitter) (buffer : Bytes) (funcName : String)
    (operation : Option String) (r : RightView) :
    (emitRightReference env e buffer funcName operation r).e = e := by
  simp only [emitRightReference]
  split
  · rfl
  · split
    · rfl
    · split
      · rfl
      · split <;> rfl

theorem emitArgReference_e (env : Env) (funcName : String) (callFunc : FuncData) (e : Emitter)
    (b : Bytes) (v : Literal) : (emitArgReference env funcName callFunc e b v).e = e := by
  simp only [emitArgReference]
  split
  · rfl
  · split
    · rfl
    · split <;> rfl

theorem emitCallArgs_e (env : Env) (funcName : String) (callFunc : FuncData)
    (args : List Literal) (i : Nat) (e : Emitter) (b : Bytes) :
    (emitCallArgs env funcName callFunc args i e b).e = e := by
  induction args generalizing i b with
  | nil => rfl
  | cons v rest ih =>
    simp only [emitCallArgs]
    have hv := emitArgReference_e env funcName callFunc e b v
    rcases hres : emitArgReference env funcName callFunc e b v with ⟨st, e', b'⟩
    rw [hres] at hv
    simp only at hv
    subst hv
    cases st with
    | ok => exact ih (i + 1) _
    | error err => rfl
    | panic => rfl

theorem emitChain_sameKeys (recur : Emitter → Bytes → Res)
    (hrec : ∀ e b, SameKeys e (recur e b).e) (e : Emitter) (buffer : Bytes) (r : RightView) :
    SameKeys e (emitChain recur e buffer r).e := by
  simp only [emitChain]
  split
  · exact hrec e buffer
  · exact SameKeys.refl e

theorem emitCall_sameKeys (env : Env) (recur : Emitter → Bytes → Res)
    (hrec : ∀ e b, SameKeys e (recur e b).e) (e : Emitter) (buffer : Bytes)
    (funcName callee : String) (r : RightView) :
    SameKeys e (emitCall env recur e buffer funcName callee r).e := by
  simp only [emitCall]
  split
  · exact SameKeys.refl e
  · split
    · exact SameKeys.refl e
    · exact SameKeys.refl e
    · rename_i rop rl
      split
      · exact SameKeys.refl e
      · have hk := emitCallStrings_sameKeys env callee rl.Params 0 e buffer
        rcases hcs : emitCallStrings env callee rl.Params 0 e buffer with ⟨e₁, b₁⟩
        rw [hcs] at hk
        simp only at hk ⊢
        split
        · exact hk
        · rename_i callFunc' _
          have ha := emitCallArgs_e env funcName callFunc' rl.Params 0 e₁ b₁
          rcases hca : emitCallArgs env funcName callFunc' rl.Params 0 e₁ b₁ with ⟨st, e₂, b₂⟩
          rw [hca] at ha
          simp only at ha
          subst ha
          cases st with
          | ok =>
            simp only
            split
            · exact SameKeys.trans hk (hrec _ _)
            · exact hk
          | error err => exact hk
          | panic => exact hk

theorem emitLeftReference_sameKeys (env : Env) (recur : Emitter → Bytes → Res)
    (hrec : ∀ e b, SameKeys e (recur e b).e) (e : Emitter) (buffer : Bytes) (funcName : String)
    (operation : Option String) (l : Option Literal) (r : RightView) :
    SameKeys e (emitLeftReference env recur e buffer funcName operation l r).e := by
  simp only [emitLeftReference]
  split
  · exact SameKeys.refl e
  · split
    · split
      · exact SameKeys.refl e
      · split <;> exact SameKeys.refl e
    · exact emitCall_sameKeys env recur hrec e buffer funcName _ r

theorem emitExpressionBody_sameKeys (env : Env) (recur : Emitter → Bytes → Res)
    (hrec : ∀ e b, SameKeys e (recur e b).e) (e : Emitter) (buffer : Bytes) (funcName : String)
    (operation : Option String) (l : Option Literal) (r : RightView) :
    SameKeys e (emitExpressionBody env recur e buffer funcName operation l r).e := by
  simp only [emitExpressionBody]
  have h1 := emitRightNum_e env e (emitLeftNum env buffer l) funcName operation r
  rcases hr1 : emitRightNum env e (emitLeftNum env buffer l) funcName operation r
    with ⟨st₁, e₁, b₁⟩
  rw [hr1] at h1
  simp only at h1
  subst h1
  cases st₁ with
  | error err => exact SameKeys.refl _
  | panic => exact SameKeys.refl _
  | ok =>
    simp only
    have h2 := emitLeftReference_sameKeys env recur hrec e₁ b₁ funcName operation l r
    rcases hr2 : emitLeftReference env recur e₁ b₁ funcName operation l r with ⟨st₂, e₂, b₂⟩
    rw [hr2] at h2
    simp only at h2
    cases st₂ with
    | error err => exact h2
    | panic => exact h2
    | ok =>
      simp only
      have h3 := emitRightReference_e env e₂ b₂ funcName operation r
      rcases hr3 : emitRightReference env e₂ b₂ funcName operation r with ⟨st₃, e₃, b₃⟩
      rw [hr3] at h3
      simp only at h3
      subst h3
      cases st₃ with
      | error err => exact h2
      | panic => exact h2
      | ok => exact SameKeys.trans h2 (emitChain_sameKeys recur hrec _ _ r)

theorem emitExpression_sameKeys (env : Env) (funcName : String) (r : Expression) :
    ∀ (e : Emitter) (buffer : Bytes) (operation : Option String) (l : Option Literal),
      SameKeys e (emitExpression env funcName r e buffer operation l).e := by
  induction r with
  | nil =>
    intro e buffer operation l
    simp only [emitExpression]
    exact emitExpressionBody_sameKeys env _ (fun e _ => SameKeys.refl e) e buffer funcName
      operation l none
  | node rop rl rr ih =>
    intro e buffer operation l
    simp only [emitExpression]
    exact emitExpressionBody_sameKeys env _ (fun e b => ih e b rop none) e buffer funcName
      operation l (some (rop, rl))

theorem emitStatements_sameKeys (env : Env) (name : String) (n : Nat) (body : List Block) :
    ∀ (i : Nat) (e : Emitter) (buf : Bytes),
      SameKeys e (emitStatements env name n body i e buf).e := by
  induction body with
  | nil =>
    intro i e buf
    exact SameKeys.refl e
  | cons s rest ih =>
    intro i e buf
    simp only [emitStatements]
    split
    · exact SameKeys.refl e
    · rename_i operator left right _
      have h := emitExpression_sameKeys env name right e buf operator left
      rcases hres : emitExpression env name right e buf operator left with ⟨st, e', b'⟩
      rw [hres] at h
      simp only at h
      cases st with
      | ok => exact SameKeys.trans h (ih _ _ _)
      | error err => exact h
      | panic => exact h

/-! ## The registry during the pass -/

theorem emitExternFunc_eq (env : Env) (moduleName : String) (e : Emitter) (a : ExternFunc) :
    emitExternFunc env moduleName e a =
      (match EmitTypes env (registerExtern e a) a.Name with
        | (.ok, e) =>
          (.ok, { EmitImports e moduleName a.Name e.externFuncsCount with
            externFuncsCount := e.externFuncsCount + 1 })
        | (.error err, e) => (.error (.failedEmitTypes err), e)
        | (.panic, e) => (.panic, e)) := rfl

theorem emitFun_eq (env : Env) (e : Emitter) (fn : Fun) :
    emitFun env e fn =
      (match EmitTypes env (registerFun e fn) fn.Name with
        | (.ok, e) =>
          match EmitFuncBody env (EmitFuncs e fn.Name (e.externFuncsCount + e.funcsCount))
              fn.Name fn.Body with
          | (.ok, e) => (.ok, { e with funcsCount := e.funcsCount + 1 })
          | (.error err, e) => (.error (.failedEmitFuncBody err), e)
          | (.panic, e) => (.panic, e)
        | (.error err, e) => (.error (.failedEmitTypes err), e)
        | (.panic, e) => (.panic, e)) := rfl

theorem EmitTypes_funcs (env : Env) (e : Emitter) (name : String) :
    (EmitTypes env e name).2.funcs = e.funcs := by
  simp only [EmitTypes]
  split
  · rfl
  · split
    · split
      · split <;> rfl
      · rfl
    · rfl

theorem EmitFuncBody_sameKeys (env : Env) (e : Emitter) (name : String) (body : List Block) :
    SameKeys e (EmitFuncBody env e name body).2 := by
  simp only [EmitFuncBody]
  have h := emitStatements_sameKeys env name body.length body 0 e [0x00]
  rcases hres : emitStatements env name body.length body 0 e [0x00] with ⟨st, e', b'⟩
  rw [hres] at h
  simp only at h
  cases st with
  | ok =>
    simp only
    split
    · exact h
    · exact h
  | error err => exact h
  | panic => exact h

theorem hasKey_registerExtern (e : Emitter) (a : ExternFunc) (g : String) :
    hasKey (registerExtern e a) g = (decide (a.Name = g) || hasKey e g) := by
  simp only [hasKey, registerExtern, GoMap.get?_set]
  by_cases h : a.Name = g <;> simp [h]

theorem hasKey_registerFun (e : Emitter) (fn : Fun) (g : String) :
    hasKey (registerFun e fn) g = (decide (fn.Name = g) || hasKey e g) := by
  simp only [hasKey, registerFun, GoMap.get?_set]
  by_cases h : fn.Name = g <;> simp [h]

theorem hasKey_of_sameKeys {e e' : Emitter} (h : SameKeys e e') (g : String) :
    hasKey e' g = hasKey e g := h g

theorem hasKey_of_funcs_eq {e e' : Emitter} (h : e'.funcs = e.funcs) (g : String) :
    hasKey e' g = hasKey e g := by
  simp only [hasKey, h]

theorem emitExternFunc_hasKey (env : Env) (moduleName : String) (e : Emitter) (a : ExternFunc)
    (g : String) :
    hasKey (emitExternFunc env moduleName e a).2 g = (decide (a.Name = g) || hasKey e g) := by
  rw [emitExternFunc_eq, ← hasKey_registerExtern]
  have h := EmitTypes_funcs env (registerExtern e a) a.Name
  rcases hres : EmitTypes env (registerExtern e a) a.Name with ⟨st, e'⟩
  rw [hres] at h
  simp only at h
  cases st with
  | ok => exact hasKey_of_funcs_eq (by simpa [EmitImports] using h) g
  | error err => exact hasKey_of_funcs_eq h g
  | panic => exact hasKey_of_funcs_eq h g

theorem emitFun_hasKey (env : Env) (e : Emitter) (fn : Fun) (g : String) :
    hasKey (emitFun env e fn).2 g = (decide (fn.Name = g) || hasKey e g) := by
  rw [emitFun_eq, ← hasKey_registerFun]
  have h := EmitTypes_funcs env (registerFun e fn) fn.Name
  rcases hres : EmitTypes env (registerFun e fn) fn.Name with ⟨st, e'⟩
  rw [hres] at h
  simp only at h
  cases st with
  | ok =>
    simp only
    have hb := EmitFuncBody_sameKeys env
      (EmitFuncs e' fn.Name (e'.externFuncsCount + e'.funcsCount)) fn.Name fn.Body
    rcases hres2 : EmitFuncBody env
        (EmitFuncs e' fn.Name (e'.externFuncsCount + e'.funcsCount)) fn.Name fn.Body
      with ⟨st₂, e₂⟩
    rw [hres2] at hb
    simp only at hb
    have hk : hasKey e₂ g = hasKey (registerFun e fn) g :=
      (hasKey_of_sameKeys hb g).trans (hasKey_of_funcs_eq (by simpa [EmitFuncs] using h) g)
    cases st₂ with
    | ok => exact hk
    | error err => exact hk
    | panic => exact hk
  | error err => exact hasKey_of_funcs_eq h g
  | panic => exact hasKey_of_funcs_eq h g

theorem emitExternFuncs_hasKey (env : Env) (moduleName : String) (l : List ExternFunc)
    (e e' : Emitter) (g : String) (h : emitExternFuncs env moduleName l e = (.ok, e')) :
    hasKey e' g = true ↔ g ∈ l.map (fun a => a.Name) ∨ hasKey e g = true := by
  induction l generalizing e with
  | nil =>
    simp only [emitExternFuncs, Prod.mk.injEq, true_and] at h
    subst h
    simp
  | cons a rest ih =>
    simp only [emitExternFuncs] at h
    have hk := emitExternFunc_hasKey env moduleName e a g
    rcases hres : emitExternFunc env moduleName e a with ⟨st, e₁⟩
    rw [hres] at h hk
    cases st with
    | ok =>
      simp only at h hk
      rw [ih e₁ h, hk]
      simp only [List.map_cons, List.mem_cons, Bool.or_eq_true, decide_eq_true_eq]
      constructor
      · rintro (h1 | h2 | h3)
        · exact Or.inl (Or.inr h1)
        · exact Or.inl (Or.inl h2.symm)
        · exact Or.inr h3
      · rintro ((h1 | h2) | h3)
        · exact Or.inr (Or.inl h1.symm)
        · exact Or.inl h2
        · exact Or.inr (Or.inr h3)
    | error err => simp at h
    | panic => simp at h

theorem emitFuns_hasKey (env : Env) (l : List Fun) (e e' : Emitter) (g : String)
    (h : emitFuns env l e = (.ok, e')) :
    hasKey e' g = true ↔ g ∈ l.map (fun fn => fn.Name) ∨ hasKey e g = true := by
  induction l generalizing e with
  | nil =>
    simp only [emitFuns, Prod.mk.injEq, true_and] at h
    subst h
    simp
  | cons fn rest ih =>
    simp only [emitFuns] at h
    have hk := emitFun_hasKey env e fn g
    rcases hres : emitFun env e fn with ⟨st, e₁⟩
    rw [hres] at h hk
    cases st with
    | ok =>
      simp only at h hk
      rw [ih e₁ h, hk]
      simp only [List.map_cons, List.mem_cons, Bool.or_eq_true, decide_eq_true_eq]
      constructor
      · rintro (h1 | h2 | h3)
        · exact Or.inl (Or.inr h1)
        · exact Or.inl (Or.inl h2.symm)
        · exact Or.inr h3
      · rintro ((h1 | h2) | h3)
        · exact Or.inr (Or.inl h1.symm)
        · exact Or.inl h2
        · exact Or.inr (Or.inr h3)
    | error err => simp at h
    | panic => simp at h

theorem emitModules_hasKey (env : Env) (ms : List Module) (e e' : Emitter) (g : String)
    (h : emitModules env ms e = (.ok, e')) :
    hasKey e' g = true ↔ g ∈ declaredNames ms ∨ hasKey e g = true := by
  induction ms generalizing e with
  | nil =>
    simp only [emitModules, Prod.mk.injEq, true_and] at h
    subst h
    simp [declaredNames]
  | cons m rest ih =>
    simp only [emitModules] at h
    rcases hres : emitExternFuncs env m.Name m.ExternFuncs e with ⟨st, e₁⟩
    rw [hres] at h
    cases st with
    | ok =>
      simp only at h
      rcases hres2 : emitFuns env m.Funs e₁ with ⟨st₂, e₂⟩
      rw [hres2] at h
      cases st₂ with
      | ok =>
        simp only at h
        rw [ih e₂ h, emitFuns_hasKey env m.Funs e₁ e₂ g hres2,
          emitExternFuncs_hasKey env m.Name m.ExternFuncs e e₁ g hres]
        simp only [declaredNames, List.flatMap_cons, List.mem_append, Module.names]
        tauto
      | error err => simp at h
      | panic => simp at h
    | error err => simp at h
    | panic => simp at h

theorem emitFuns_append (env : Env) (fs₁ rest : List Fun) (e e₁ : Emitter)
    (h : emitFuns env fs₁ e = (.ok, e₁)) :
    emitFuns env (fs₁ ++ rest) e = emitFuns env rest e₁ := by
  induction fs₁ generalizing e with
  | nil =>
    simp only [emitFuns, Prod.mk.injEq, true_and] at h
    subst h
    rfl
  | cons fn tl ih =>
    simp only [emitFuns] at h
    simp only [List.cons_append, emitFuns]
    rcases hres : emitFun env e fn with ⟨st, e₂⟩
    rw [hres] at h
    cases st with
    | ok => exact ih e₂ h
    | error err => simp at h
    | panic => simp at h

theorem emitModules_append (env : Env) (ms₁ rest : List Module) (e e₁ : Emitter)
    (h : emitModules env ms₁ e = (.ok, e₁)) :
    emitModules env (ms₁ ++ rest) e = emitModules env rest e₁ := by
  induction ms₁ generalizing e with
  | nil =>
    simp only [emitModules, Prod.mk.injEq, true_and] at h
    subst h
    rfl
  | cons m tl ih =>
    simp only [emitModules] at h
    simp only [List.cons_append, emitModules]
    rcases hres : emitExternFuncs env m.Name m.ExternFuncs e with ⟨st, e₂⟩
    rw [hres] at h
    cases st with
    | ok =>
      simp only at h ⊢
      rcases hres2 : emitFuns env m.Funs e₂ with ⟨st₂, e₃⟩
      rw [hres2] at h
      cases st₂ with
      | ok => exact ih e₃ h
      | error err => simp at h
      | panic => simp at h
    | error err => simp at h
    | panic => simp at h

theorem emitStatements_append (env : Env) (name : String) (n : Nat) (b₁ rest : List Block)
    (i : Nat) (e e₁ : Emitter) (buf buf₁ : Bytes)
    (h : emitStatements env name n b₁ i e buf = ⟨.ok, e₁, buf₁⟩) :
    emitStatements env name n (b₁ ++ rest) i e buf =
      emitStatements env name n rest (i + b₁.length) e₁ buf₁ := by
  induction b₁ generalizing i e buf with
  | nil =>
    simp only [emitStatements, Res.mk.injEq, true_and] at h
    obtain ⟨h1, h2⟩ := h
    subst h1 h2
    simp
  | cons s tl ih =>
    simp only [emitStatements] at h
    simp only [List.cons_append, emitStatements, List.length_cons]
    cases hs : s.Exp with
    | nil =>
      rw [hs] at h
      simp at h
    | node operator left right =>
      rw [hs] at h
      simp only at h ⊢
      rcases hres : emitExpression env name right e buf operator left with ⟨st, e₂, b₂⟩
      rw [hres] at h
      cases st with
      | ok =>
        simp only at h ⊢
        have hih := ih (i + 1) e₂ _ h
        rw [show tl.append rest = tl ++ rest from rfl, hih]
        congr 1
        omega
      | error err => simp at h
      | panic => simp at h

/-! ## Calls that fail -/

theorem emitExpression_unknown_callee (env : Env) (f g : String) (r : Expression) (e : Emitter)
    (buf : Bytes) (hg : e.funcs.get? g = none) (hr : r.view.left.bind Literal.Num = none) :
    emitExpression env f r e buf none (some (refLit g)) = ⟨.error (.unknownFunc f g), e, buf⟩ := by
  cases r with
  | nil =>
    simp only [emitExpression]
    simp only [emitExpressionBody, emitLeftNum, refLit, Literal.Num, Option.bind]
    simp only [emitRightNum, RightView.left, Option.bind]
    simp only [emitLeftReference, Literal.Reference, Option.bind, emitCall, hg]
  | node rop rl rr =>
    simp only [Expression.view] at hr
    simp only [emitExpression]
    simp only [emitExpressionBody, emitLeftNum, refLit, Literal.Num, Option.bind]
    simp only [emitRightNum, hr]
    simp only [emitLeftReference, Literal.Reference, Option.bind, emitCall, hg]

theorem emitExpression_arity (env : Env) (f g : String) (rop : Option String)
    (args : List Literal) (rr : Expression) (e : Emitter) (buf : Bytes) (callFunc : FuncData)
    (hg : e.funcs.get? g = some callFunc) (hlen : callFunc.Params.length ≠ args.length) :
    emitExpression env f (.node rop (some (argsLit args)) rr) e buf none (some (refLit g)) =
      ⟨.error (.extraParams f callFunc.Name), e, buf⟩ := by
  simp only [emitExpression]
  simp only [emitExpressionBody, emitLeftNum, refLit, argsLit, Literal.Num, Option.bind]
  simp only [emitRightNum, RightView.left, Literal.Num, Option.bind]
  simp only [emitLeftReference, Literal.Reference, Option.bind, emitCall, hg, Literal.Params,
    hlen, ne_eq, not_false_eq_true, if_true]

theorem emitStatements_head_error (env : Env) (name : String) (n i : Nat) (e : Emitter)
    (buf : Bytes) (operator : Option String) (left : Option Literal) (right : Expression)
    (rest : List Block) (err : EmitError)
    (h : (emitExpression env name right e buf operator left).status = .error err) :
    (emitStatements env name n (⟨.node operator left right⟩ :: rest) i e buf).status =
      .error err := by
  simp only [emitStatements]
  rcases hres : emitExpression env name right e buf operator left with ⟨st, e', b'⟩
  rw [hres] at h
  simp only at h
  subst h
  rfl

theorem EmitFuncBody_error (env : Env) (e : Emitter) (name : String) (body : List Block)
    (err : EmitError)
    (h : (emitStatements env name body.length body 0 e [0x00]).status = .error err) :
    (EmitFuncBody env e name body).1 = .error err := by
  simp only [EmitFuncBody]
  rcases hres : emitStatements env name body.length body 0 e [0x00] with ⟨st, e', b'⟩
  rw [hres] at h
  simp only at h
  subst h
  rfl

theorem emitFun_body_error (env : Env) (e ed : Emitter) (fn : Fun) (err : EmitError)
    (ht : EmitTypes env (registerFun e fn) fn.Name = (.ok, ed))
    (hb : (EmitFuncBody env (EmitFuncs ed fn.Name (ed.externFuncsCount + ed.funcsCount))
      fn.Name fn.Body).1 = .error err) :
    (emitFun env e fn).1 = .error (.failedEmitFuncBody err) := by
  rw [emitFun_eq, ht]
  simp only
  rcases hres : EmitFuncBody env (EmitFuncs ed fn.Name (ed.externFuncsCount + ed.funcsCount))
      fn.Name fn.Body with ⟨st, e'⟩
  rw [hres] at hb
  simp only at hb
  subst hb
  rfl

theorem emitFuns_head_error (env : Env) (e : Emitter) (fn : Fun) (rest : List Fun)
    (err : EmitError) (h : (emitFun env e fn).1 = .error err) :
    (emitFuns env (fn :: rest) e).1 = .error err := by
  simp only [emitFuns]
  rcases hres : emitFun env e fn with ⟨st, e'⟩
  rw [hres] at h
  simp only at h
  subst h
  rfl

theorem emitModules_head_error (env : Env) (ea eb : Emitter) (m : Module) (rest : List Module)
    (err : EmitError) (hx : emitExternFuncs env m.Name m.ExternFuncs ea = (.ok, eb))
    (h : (emitFuns env m.Funs eb).1 = .error err) :
    (emitModules env (m :: rest) ea).1 = .error err := by
  simp only [emitModules, hx]
  rcases hres : emitFuns env m.Funs eb with ⟨st, e'⟩
  rw [hres] at h
  simp only at h
  subst h
  rfl

theorem EmitAll_error_of_tree (env : Env) (e : Emitter) (err : EmitError)
    (h : (emitTree env e).1 = .error err) : EmitAll env e = .error err := by
  simp only [EmitAll]
  rcases hres : emitTree env e with ⟨st, e'⟩
  rw [hres] at h
  simp only at h
  subst h
  rfl

theorem emitRightNum_status (env : Env) (e : Emitter) (buffer : Bytes) (funcName : String)
    (operation : Option String) (r : RightView) (err : EmitError) :
    (emitRightNum env e buffer funcName operation r).status ≠ .error err := by
  simp only [emitRightNum]
  split
  · split <;> simp
  · simp

theorem emitRightReference_status (env : Env) (e : Emitter) (buffer : Bytes) (funcName : String)
    (operation : Option String) (r : RightView) (err : EmitError)
    (h : (emitRightReference env e buffer funcName operation r).status = .error err) :
    ArgOrChainError err := by
  simp only [emitRightReference] at h
  split at h
  · simp at h
  · split at h
    · simp at h
    · split at h
      · simp only [Status.error.injEq] at h
        exact Or.inr ⟨_, _, h.symm⟩
      · split at h <;> simp at h

theorem emitChain_status (recur : Emitter → Bytes → Res) (e : Emitter) (buffer : Bytes)
    (r : RightView) (err : EmitError)
    (hrec : ∀ e b, (recur e b).status = .error err → ArgOrChainError err)
    (h : (emitChain recur e buffer r).status = .error err) : ArgOrChainError err := by
  simp only [emitChain] at h
  split at h
  · exact hrec _ _ h
  · simp at h

theorem emitExpressionBody_no_left_status (env : Env) (recur : Emitter → Bytes → Res)
    (e : Emitter) (buffer : Bytes) (funcName : String) (operation : Option String)
    (r : RightView) (err : EmitError)
    (hrec : ∀ e b, (recur e b).status = .error err → ArgOrChainError err)
    (h : (emitExpressionBody env recur e buffer funcName operation none r).status = .error err) :
    ArgOrChainError err := by
  simp only [emitExpressionBody, emitLeftNum, Option.bind] at h
  have h1 := emitRightNum_status env e buffer funcName operation r
  rcases hr1 : emitRightNum env e buffer funcName operation r with ⟨st₁, e₁, b₁⟩
  rw [hr1] at h h1
  cases st₁ with
  | error err' => exact absurd rfl (h1 err')
  | panic => simp at h
  | ok =>
    simp only [emitLeftReference, Option.bind] at h
    rcases hr3 : emitRightReference env e₁ b₁ funcName operation r with ⟨st₃, e₃, b₃⟩
    rw [hr3] at h
    have h3 := emitRightReference_status env e₁ b₁ funcName operation r err
    rw [hr3] at h3
    cases st₃ with
    | error err' => exact h3 h
    | panic => simp at h
    | ok => exact emitChain_status recur e₃ b₃ r err hrec h

theorem emitExpression_no_left_status (env : Env) (funcName : String) (r : Expression)
    (err : EmitError) :
    ∀ (e : Emitter) (buffer : Bytes) (operation : Option String),
      (emitExpression env funcName r e buffer operation none).status = .error err →
        ArgOrChainError err := by
  induction r with
  | nil =>
    intro e buffer operation h
    simp only [emitExpression] at h
    exact emitExpressionBody_no_left_status env _ e buffer funcName operation none err
      (fun e b hh => by simp at hh) h
  | node rop rl rr ih =>
    intro e buffer operation h
    simp only [emitExpression] at h
    exact emitExpressionBody_no_left_status env _ e buffer funcName operation (some (rop, rl)) err
      (fun e b hh => ih e b rop hh) h

theorem emitArgReference_status (env : Env) (funcName : String) (callFunc : FuncData)
    (e : Emitter) (b : Bytes) (v : Literal) (err : EmitError)
    (h : (emitArgReference env funcName callFunc e b v).status = .error err) :
    ArgOrChainError err := by
  simp only [emitArgReference] at h
  split at h
  · simp at h
  · split at h
    · simp at h
    · split at h
      · simp only [Status.error.injEq] at h
        exact Or.inl ⟨_, _, _, h.symm⟩
      · simp at h

theorem emitCallArgs_status (env : Env) (funcName : String) (callFunc : FuncData)
    (args : List Literal) (err : EmitError) :
    ∀ (i : Nat) (e : Emitter) (b : Bytes),
      (emitCallArgs env funcName callFunc args i e b).status = .error err →
        ArgOrChainError err := by
  induction args with
  | nil =>
    intro i e b h
    simp [emitCallArgs] at h
  | cons v rest ih =>
    intro i e b h
    simp only [emitCallArgs] at h
    have hv := emitArgReference_status env funcName callFunc e b v err
    rcases hres : emitArgReference env funcName callFunc e b v with ⟨st, e', b'⟩
    rw [hres] at h hv
    cases st with
    | ok => exact ih _ _ _ h
    | error err' => exact hv h
    | panic => simp at h

theorem emitCall_status (env : Env) (recur : Emitter → Bytes → Res) (e : Emitter)
    (buffer : Bytes) (funcName callee : String) (r : RightView) (callFunc : FuncData)
    (err : EmitError) (hg : e.funcs.get? callee = some callFunc)
    (hrec : ∀ e b, (recur e b).status = .error err → ArgOrChainError err)
    (h : (emitCall env recur e buffer funcName callee r).status = .error err) :
    (err = .extraParams funcName callFunc.Name ∧
        ∃ rl, r.left = some rl ∧ callFunc.Params.length ≠ rl.Params.length) ∨
      ArgOrChainError err := by
  simp only [emitCall, hg] at h
  split at h
  · simp at h
  · simp at h
  · rename_i rop rl
    by_cases hlen : callFunc.Params.length = rl.Params.length
    · right
      simp only [hlen, ne_eq, not_true_eq_false, if_false] at h
      rcases hcs : emitCallStrings env callee rl.Params 0 e buffer with ⟨e₁, b₁⟩
      rw [hcs] at h
      simp only at h
      split at h
      · simp at h
      · rename_i cf₁ _
        have ha := emitCallArgs_status env funcName cf₁ rl.Params err 0 e₁ b₁
        rcases hres : emitCallArgs env funcName cf₁ rl.Params 0 e₁ b₁ with ⟨st, e₂, b₂⟩
        rw [hres] at h ha
        cases st with
        | ok =>
          simp only at h
          split at h
          · exact hrec _ _ h
          · simp at h
        | error err' => exact ha h
        | panic => simp at h
    · left
      simp only [hlen, ne_eq, not_false_eq_true, if_true, Status.error.injEq] at h
      exact ⟨h.symm, rl, rfl, hlen⟩

theorem emitExpressionBody_call_status (env : Env) (recur : Emitter → Bytes → Res)
    (e : Emitter) (buffer : Bytes) (funcName g : String) (r : RightView) (callFunc : FuncData)
    (err : EmitError) (hg : e.funcs.get? g = some callFunc)
    (hrec : ∀ e b, (recur e b).status = .error err → ArgOrChainError err)
    (h : (emitExpressionBody env recur e buffer funcName none (some (refLit g)) r).status =
      .error err) :
    (err = .extraParams funcName callFunc.Name ∧
        ∃ rl, r.left = some rl ∧ callFunc.Params.length ≠ rl.Params.length) ∨
      ArgOrChainError err := by
  simp only [emitExpressionBody, emitLeftNum, refLit, Literal.Num, Option.bind] at h
  have h1 := emitRightNum_status env e buffer funcName none r
  have h1e := emitRightNum_e env e buffer funcName none r
  rcases hr1 : emitRightNum env e buffer funcName none r with ⟨st₁, e₁, b₁⟩
  rw [hr1] at h h1 h1e
  simp only at h1e
  subst h1e
  cases st₁ with
  | error err' => exact absurd rfl (h1 err')
  | panic => simp at h
  | ok =>
    simp only [emitLeftReference, Literal.Reference, Option.bind] at h
    have h2 := emitCall_status env recur e₁ b₁ funcName g r callFunc err hg hrec
    rcases hr2 : emitCall env recur e₁ b₁ funcName g r with ⟨st₂, e₂, b₂⟩
    rw [hr2] at h h2
    cases st₂ with
    | error err' => exact h2 h
    | panic => simp at h
    | ok =>
      simp only at h
      have h3 := emitRightReference_status env e₂ b₂ funcName none r err
      rcases hr3 : emitRightReference env e₂ b₂ funcName none r with ⟨st₃, e₃, b₃⟩
      rw [hr3] at h h3
      cases st₃ with
      | error err' => exact Or.inr (h3 h)
      | panic => simp at h
      | ok => exact Or.inr (emitChain_status recur e₃ b₃ r err hrec h)

theorem emitExpression_call_status (env : Env) (funcName g : String) (r : Expression)
    (e : Emitter) (buffer : Bytes) (callFunc : FuncData) (err : EmitError)
    (hg : e.funcs.get? g = some callFunc)
    (h : (emitExpression env funcName r e buffer none (some (refLit g))).status = .error err) :
    (err = .extraParams funcName callFunc.Name ∧
        ∃ rl, r.view.left = some rl ∧ callFunc.Params.length ≠ rl.Params.length) ∨
      ArgOrChainError err := by
  cases r with
  | nil =>
    simp only [emitExpression] at h
    exact emitExpressionBody_call_status env _ e buffer funcName g none callFunc err hg
      (fun e b hh => by simp at hh) h
  | node rop rl rr =>
    simp only [emitExpression] at h
    exact emitExpressionBody_call_status env _ e buffer funcName g (some (rop, rl)) callFunc err hg
      (fun e b hh => emitExpression_no_left_status env funcName rr err e b rop hh) h

/-! ## Emission up to a statement -/

theorem EmitAll_error_of_reaches (env : Env) (ms₁ ms₂ : List Module) (m : Module)
    (fs₁ fs₂ : List Fun) (fn : Fun) (b₁ b₂ : List Block) (operator : Option String)
    (left : Option Literal) (right : Expression) (ee : Emitter) (buf : Bytes) (err : EmitError)
    (hm : m.Funs = fs₁ ++ fn :: fs₂)
    (hbody : fn.Body = b₁ ++ ⟨.node operator left right⟩ :: b₂)
    (hreach : Reaches env ms₁ m ms₂ fs₁ fn b₁ ee buf)
    (hfail : (emitExpression env fn.Name right ee buf operator left).status = .error err) :
    EmitAll env (NewEmitter ⟨ms₁ ++ m :: ms₂⟩) = .error (.failedEmitFuncBody err) := by
  obtain ⟨ea, eb, ec, ed, h1, h2, h3, h4, h5⟩ := hreach
  apply EmitAll_error_of_tree
  show (emitModules env (ms₁ ++ m :: ms₂)
    (EmitRuntime env (EmitMemory (NewEmitter ⟨ms₁ ++ m :: ms₂⟩)))).1 = _
  rw [emitModules_append env ms₁ (m :: ms₂) _ ea h1]
  apply emitModules_head_error env ea eb m ms₂ _ h2
  rw [hm, emitFuns_append env fs₁ (fn :: fs₂) eb ec h3]
  apply emitFuns_head_error
  apply emitFun_body_error env ec ed fn err h4
  apply EmitFuncBody_error
  have key : (emitStatements env fn.Name fn.Body.length
      (b₁ ++ ⟨.node operator left right⟩ :: b₂) 0
      (EmitFuncs ed fn.Name (ed.externFuncsCount + ed.funcsCount)) [0x00]).status =
        .error err := by
    rw [emitStatements_append env fn.Name fn.Body.length b₁ _ 0 _ ee _ buf h5]
    exact emitStatements_head_error env fn.Name _ _ ee buf operator left right b₂ err hfail
  rw [← hbody] at key
  exact key

theorem hasKey_of_reaches (env : Env) (ms₁ ms₂ : List Module) (m : Module) (fs₁ : List Fun)
    (fn : Fun) (b₁ : List Block) (ee : Emitter) (buf : Bytes) (g : String)
    (hreach : Reaches env ms₁ m ms₂ fs₁ fn b₁ ee buf) :
    hasKey ee g = true ↔
      g ∈ declaredNames ms₁ ∨ g ∈ m.ExternFuncs.map (fun a => a.Name) ∨
        g ∈ fs₁.map (fun fn => fn.Name) ∨ g = fn.Name := by
  obtain ⟨ea, eb, ec, ed, h1, h2, h3, h4, h5⟩ := hreach
  have k1 := emitModules_hasKey env ms₁ _ ea g h1
  have k0 : hasKey (EmitRuntime env (EmitMemory (NewEmitter ⟨ms₁ ++ m :: ms₂⟩))) g = false := rfl
  rw [k0] at k1
  have k2 := emitExternFuncs_hasKey env m.Name m.ExternFuncs ea eb g h2
  have k3 := emitFuns_hasKey env fs₁ eb ec g h3
  have k4 : hasKey ed g = hasKey (registerFun ec fn) g := by
    have := EmitTypes_funcs env (registerFun ec fn) fn.Name
    rw [h4] at this
    exact hasKey_of_funcs_eq this g
  have k5 : hasKey ee g = hasKey ed g := by
    have := emitStatements_sameKeys env fn.Name fn.Body.length b₁ 0
      (EmitFuncs ed fn.Name (ed.externFuncsCount + ed.funcsCount)) [0x00]
    rw [h5] at this
    exact (hasKey_of_sameKeys this g).trans (hasKey_of_funcs_eq rfl g)
  rw [k5, k4, hasKey_registerFun, Bool.or_eq_true, decide_eq_true_eq, k3, k2, k1]
  simp only [Bool.false_eq_true, or_false]
  constructor
  · rintro (h | h | h | h)
    · exact Or.inr (Or.inr (Or.inr h.symm))
    · exact Or.inr (Or.inr (Or.inl h))
    · exact Or.inr (Or.inl h)
    · exact Or.inl h
  · rintro (h | h | h | h)
    · exact Or.inr (Or.inr (Or.inr h))
    · exact Or.inr (Or.inr (Or.inl h))
    · exact Or.inr (Or.inl h)
    · exact Or.inl h.symm

/-! ## C19: name resolution follows the traversal order -/

/-- C19, as stated, fails: in module `m` the body of `f` is `y + 1` followed by
the call `g()`, and `g` is defined after `f`. `EmitAll` fails, but with the
unknown-parameter error of the first statement, not with the unknown-function
error: emission stops before the call is looked at. -/
theorem C19_earlier_failure_counterexample :
    shadowedAst.Modules.map (fun m => m.Funs.map (fun fn => fn.Name)) = [["f", "g"]] ∧
      EmitAll wasmEnv (NewEmitter shadowedAst) =
        .error (.failedEmitFuncBody (.unknownParam "f" "y")) := by
  decide

/-- C19 (amended): name resolution of calls follows the traversal order. Let
emission reach a call statement with callee `g` in the body of `fn`, a
definition of module `m` (after the modules `ms₁`, after the definitions `fs₁`
of `m`, after the statements `b₁` of the body). If the right-hand node of the
call carries no numeric literal and `g` is not among the names registered so
far (the externs and definitions of `ms₁`, the externs of `m`, the definitions
`fs₁`, and `fn` itself), then `EmitAll` fails with the unknown-function error,
wrapped as a function-body failure, whatever the rest of the tree declares. If
`g` is among these names, the lookup finds a descriptor and lowering the call
does not yield the unknown-function error. -/
theorem C19_resolution_follows_traversal (env : Env) (ms₁ ms₂ : List Module) (m : Module)
    (fs₁ fs₂ : List Fun) (fn : Fun) (b₁ b₂ : List Block) (g : String) (r : Expression)
    (ee : Emitter) (buf : Bytes)
    (hm : m.Funs = fs₁ ++ fn :: fs₂)
    (hbody : fn.Body = b₁ ++ ⟨.node none (some (refLit g)) r⟩ :: b₂)
    (hreach : Reaches env ms₁ m ms₂ fs₁ fn b₁ ee buf) :
    (r.view.left.bind Literal.Num = none → g ∉ declaredNames ms₁ →
      g ∉ m.ExternFuncs.map (fun a => a.Name) → g ∉ fs₁.map (fun fn => fn.Name) →
      g ≠ fn.Name →
        EmitAll env (NewEmitter ⟨ms₁ ++ m :: ms₂⟩) =
          .error (.failedEmitFuncBody (.unknownFunc fn.Name g))) ∧
    ((g ∈ declaredNames ms₁ ∨ g ∈ m.ExternFuncs.map (fun a => a.Name) ∨
        g ∈ fs₁.map (fun fn => fn.Name) ∨ g = fn.Name) →
      (ee.funcs.get? g).isSome = true ∧
        ∀ x y, (emitExpression env fn.Name r ee buf none (some (refLit g))).status ≠
          .error (.unknownFunc x y)) := by
  have hk := hasKey_of_reaches env ms₁ ms₂ m fs₁ fn b₁ ee buf g hreach
  constructor
  · intro hr h1 h2 h3 h4
    have hnone : ee.funcs.get? g = none := by
      cases hget : ee.funcs.get? g with
      | none => rfl
      | some cf =>
        have : hasKey ee g = true := by simp only [hasKey, hget, Option.isSome_some]
        rcases hk.1 this with h | h | h | h
        · exact absurd h h1
        · exact absurd h h2
        · exact absurd h h3
        · exact absurd h h4
    apply EmitAll_error_of_reaches env ms₁ ms₂ m fs₁ fs₂ fn b₁ b₂ none (some (refLit g)) r ee buf
      _ hm hbody hreach
    rw [emitExpression_unknown_callee env fn.Name g r ee buf hnone hr]
  · intro hin
    have hsome : hasKey ee g = true := hk.2 hin
    refine ⟨hsome, ?_⟩
    intro x y hst
    simp only [hasKey] at hsome
    cases hget : ee.funcs.get? g with
    | none => simp [hget] at hsome
    | some cf =>
      rcases emitExpression_call_status env fn.Name g r ee buf cf _ hget hst with h | h | h
      · exact EmitError.noConfusion h.1
      · obtain ⟨a, b, c, h⟩ := h
        exact EmitError.noConfusion h
      · obtain ⟨a, b, h⟩ := h
        exact EmitError.noConfusion h

/-- C19, witness: in `laterAst` the body of `f` calls `g`, defined after `f`,
and `EmitAll` fails with the unknown-function error; in the module whose only
definition is `f() = f()` the self-call is resolved. -/
theorem C19_resolution_follows_traversal_witness :
    EmitAll wasmEnv (NewEmitter ⟨[] ++ (⟨"m", [], [callerOfG, calleeG]⟩ : Module) :: []⟩) =
        .error (.failedEmitFuncBody (.unknownFunc "f" "g")) ∧
      ∃ ee buf, Reaches wasmEnv [] ⟨"m", [], [selfCaller]⟩ [] [] selfCaller [] ee buf ∧
        (ee.funcs.get? "f").isSome = true ∧
        ∀ x y, (emitExpression wasmEnv "f" (.node none (some (argsLit [])) .nil) ee buf none
          (some (refLit "f"))).status ≠ .error (.unknownFunc x y) := by
  have hr1 : Reaches wasmEnv [] ⟨"m", [], [callerOfG, calleeG]⟩ [] [] callerOfG []
      (firstBodyState wasmEnv ⟨[] ++ (⟨"m", [], [callerOfG, calleeG]⟩ : Module) :: []⟩
        callerOfG) [0x00] := by
    unfold Reaches
    exact ⟨_, _, _, _, rfl, rfl, rfl, rfl, rfl⟩
  have hr2 : Reaches wasmEnv [] ⟨"m", [], [selfCaller]⟩ [] [] selfCaller []
      (firstBodyState wasmEnv ⟨[] ++ (⟨"m", [], [selfCaller]⟩ : Module) :: []⟩
        selfCaller) [0x00] := by
    unfold Reaches
    exact ⟨_, _, _, _, rfl, rfl, rfl, rfl, rfl⟩
  refine ⟨(C19_resolution_follows_traversal wasmEnv [] [] ⟨"m", [], [callerOfG, calleeG]⟩ []
    [calleeG] callerOfG [] [] "g" (.node none (some (argsLit [])) .nil) _ _ rfl rfl hr1).1
      rfl (by decide) (by decide) (by decide) (by decide), _, _, hr2, ?_⟩
  exact (C19_resolution_follows_traversal wasmEnv [] [] ⟨"m", [], [selfCaller]⟩ []
    [] selfCaller [] [] "f" (.node none (some (argsLit [])) .nil) _ _ rfl rfl hr2).2
      (Or.inr (Or.inr (Or.inr rfl)))

/-! ## The size of a parameter table -/

theorem GoMap.length_set_of_mem {α : Type} (m : GoMap α) (k : String) (p v : α)
    (h : (k, p) ∈ m) : (GoMap.set m k v).length = m.length := by
  induction m with
  | nil => simp at h
  | cons hd tl ih =>
    obtain ⟨k₀, v₀⟩ := hd
    by_cases hk : k₀ = k
    · simp [GoMap.set, hk]
    · have htl : (k, p) ∈ tl := by
        rcases List.mem_cons.1 h with h | h
        · exact absurd (congrArg Prod.fst h).symm hk
        · exact h
      simp [GoMap.set, hk, ih htl]

theorem GoMap.keys_set {α : Type} (m : GoMap α) (k : String) (v : α) :
    (GoMap.set m k v).map Prod.fst =
      if k ∈ m.map Prod.fst then m.map Prod.fst else m.map Prod.fst ++ [k] := by
  induction m with
  | nil => simp [GoMap.set]
  | cons hd tl ih =>
    obtain ⟨k₀, v₀⟩ := hd
    by_cases hk : k₀ = k
    · subst hk
      simp [GoMap.set]
    · have hne : ¬ k = k₀ := fun h => hk h.symm
      simp only [GoMap.set, hk, if_false, List.map_cons, ih, List.mem_cons, hne, false_or]
      split <;> simp

theorem registerParams_keys (ps : List Param) :
    ∀ (i : Nat) (m : GoMap FuncParam), (m.map Prod.fst).Nodup →
      ((registerParams ps i m).map Prod.fst).Nodup ∧
        ∀ k, k ∈ (registerParams ps i m).map Prod.fst ↔
          k ∈ m.map Prod.fst ∨ k ∈ ps.map (fun p => p.Name) := by
  induction ps with
  | nil =>
    intro i m hm
    simp [registerParams, hm]
  | cons p rest ih =>
    intro i m hm
    simp only [registerParams]
    have hset : ((GoMap.set m p.Name ⟨i, p.Name, p.Typ.Name, 0⟩).map Prod.fst).Nodup := by
      rw [GoMap.keys_set]
      split
      · exact hm
      · rename_i hnot
        exact List.Nodup.append hm (List.nodup_singleton _) (by simpa using hnot)
    obtain ⟨h1, h2⟩ := ih (i + 1) _ hset
    refine ⟨h1, ?_⟩
    intro k
    rw [h2, GoMap.keys_set]
    split
    · rename_i hin
      simp only [List.map_cons, List.mem_cons]
      constructor
      · rintro (h | h)
        · exact Or.inl h
        · exact Or.inr (Or.inr h)
      · rintro (h | h | h)
        · exact Or.inl h
        · exact Or.inl (h ▸ hin)
        · exact Or.inr h
    · simp only [List.mem_append, List.mem_singleton, List.map_cons, List.mem_cons]
      tauto

theorem registerParams_length (ps : List Param) :
    (registerParams ps 0 []).length = paramCount ps := by
  obtain ⟨hnd, hmem⟩ := registerParams_keys ps 0 [] List.nodup_nil
  have h1 : (registerParams ps 0 []).length =
      ((registerParams ps 0 []).map Prod.fst).toFinset.card := by
    rw [List.toFinset_card_of_nodup hnd, List.length_map]
  have h2 : ((registerParams ps 0 []).map Prod.fst).toFinset =
      (ps.map (fun p => p.Name)).toFinset := by
    ext k
    simp only [List.mem_toFinset]
    rw [hmem]
    simp
  rw [h1, h2, List.card_toFinset, paramCount]

theorem paramCount_of_nodup (ps : List Param) (h : (ps.map (fun p => p.Name)).Nodup) :
    paramCount ps = ps.length := by
  rw [paramCount, List.Nodup.dedup h, List.length_map]

/-! ## Table sizes during lowering -/

theorem sameArity_refl (e : Emitter) : SameArity e e := fun _ => rfl

theorem sameArity_trans {e₁ e₂ e₃ : Emitter} (h₁ : SameArity e₁ e₂) (h₂ : SameArity e₂ e₃) :
    SameArity e₁ e₃ := fun g => (h₂ g).trans (h₁ g)

theorem registeredArity_of_funcs_eq {e e' : Emitter} (h : e'.funcs = e.funcs) (g : String) :
    registeredArity e' g = registeredArity e g := by
  simp only [registeredArity, h]

theorem registeredArity_of_sameArity {e e' : Emitter} (h : SameArity e e') (g : String) :
    registeredArity e' g = registeredArity e g := h g

theorem emitCallStrings_sameArity (env : Env) (callee : String) (args : List Literal) (i : Nat)
    (e : Emitter) (b : Bytes) : SameArity e (emitCallStrings env callee args i e b).1 := by
  induction args generalizing i e b with
  | nil => exact sameArity_refl e
  | cons v rest ih =>
    simp only [emitCallStrings]
    cases hget : e.funcs.get? callee with
    | none => exact ih (i + 1) e b
    | some callFunc =>
      simp only
      cases hfind : List.find? (fun kp => decide (i = kp.2.Index)) (env.range callFunc.Params) with
      | none => exact ih (i + 1) e b
      | some kp =>
        cases hstr : v.Str with
        | none => exact ih (i + 1) e b
        | some str =>
          simp only
          refine sameArity_trans ?_ (ih (i + 1) _ _)
          have hmem : (kp.1, kp.2) ∈ callFunc.Params :=
            (Env.mem_range env callFunc.Params kp).1 (List.mem_of_find?_eq_some hfind)
          intro g
          simp only [registeredArity, GoMap.get?_set, emitString_funcs]
          by_cases hg : callee = g
          · subst hg
            simp [hget, GoMap.length_set_of_mem callFunc.Params kp.1 kp.2 _ hmem]
          · simp [hg]

theorem emitChain_sameArity (recur : Emitter → Bytes → Res)
    (hrec : ∀ e b, SameArity e (recur e b).e) (e : Emitter) (buffer : Bytes) (r : RightView) :
    SameArity e (emitChain recur e buffer r).e := by
  simp only [emitChain]
  split
  · exact hrec e buffer
  · exact sameArity_refl e

theorem emitCall_sameArity (env : Env) (recur : Emitter → Bytes → Res)
    (hrec : ∀ e b, SameArity e (recur e b).e) (e : Emitter) (buffer : Bytes)
    (funcName callee : String) (r : RightView) :
    SameArity e (emitCall env recur e buffer funcName callee r).e := by
  simp only [emitCall]
  split
  · exact sameArity_refl e
  · split
    · exact sameArity_refl e
    · exact sameArity_refl e
    · rename_i rop rl
      split
      · exact sameArity_refl e
      · have hk := emitCallStrings_sameArity env callee rl.Params 0 e buffer
        rcases hcs : emitCallStrings env callee rl.Params 0 e buffer with ⟨e₁, b₁⟩
        rw [hcs] at hk
        simp only at hk ⊢
        split
        · exact hk
        · rename_i callFunc' _
          have ha := emitCallArgs_e env funcName callFunc' rl.Params 0 e₁ b₁
          rcases hca : emitCallArgs env funcName callFunc' rl.Params 0 e₁ b₁ with ⟨st, e₂, b₂⟩
          rw [hca] at ha
          simp only at ha
          subst ha
          cases st with
          | ok =>
            simp only
            split
            · exact sameArity_trans hk (hrec _ _)
            · exact hk
          | error err => exact hk
          | panic => exact hk

theorem emitLeftReference_sameArity (env : Env) (recur : Emitter → Bytes → Res)
    (hrec : ∀ e b, SameArity e (recur e b).e) (e : Emitter) (buffer : Bytes) (funcName : String)
    (operation : Option String) (l : Option Literal) (r : RightView) :
    SameArity e (emitLeftReference env recur e buffer funcName operation l r).e := by
  simp only [emitLeftReference]
  split
  · exact sameArity_refl e
  · split
    · split
      · exact sameArity_refl e
      · split <;> exact sameArity_refl e
    · exact emitCall_sameArity env recur hrec e buffer funcName _ r

theorem emitExpressionBody_sameArity (env : Env) (recur : Emitter → Bytes → Res)
    (hrec : ∀ e b, SameArity e (recur e b).e) (e : Emitter) (buffer : Bytes) (funcName : String)
    (operation : Option String) (l : Option Literal) (r : RightView) :
    SameArity e (emitExpressionBody env recur e buffer funcName operation l r).e := by
  simp only [emitExpressionBody]
  have h1 := emitRightNum_e env e (emitLeftNum env buffer l) funcName operation r
  rcases hr1 : emitRightNum env e (emitLeftNum env buffer l) funcName operation r
    with ⟨st₁, e₁, b₁⟩
  rw [hr1] at h1
  simp only at h1
  subst h1
  cases st₁ with
  | error err => exact sameArity_refl _
  | panic => exact sameArity_refl _
  | ok =>
    simp only
    have h2 := emitLeftReference_sameArity env recur hrec e₁ b₁ funcName operation l r
    rcases hr2 : emitLeftReference env recur e₁ b₁ funcName operation l r with ⟨st₂, e₂, b₂⟩
    rw [hr2] at h2
    simp only at h2
    cases st₂ with
    | error err => exact h2
    | panic => exact h2
    | ok =>
      simp only
      have h3 := emitRightReference_e env e₂ b₂ funcName operation r
      rcases hr3 : emitRightReference env e₂ b₂ funcName operation r with ⟨st₃, e₃, b₃⟩
      rw [hr3] at h3
      simp only at h3
      subst h3
      cases st₃ with
      | error err => exact h2
      | panic => exact h2
      | ok => exact sameArity_trans h2 (emitChain_sameArity recur hrec _ _ r)

theorem emitExpression_sameArity (env : Env) (funcName : String) (r : Expression) :
    ∀ (e : Emitter) (buffer : Bytes) (operation : Option String) (l : Option Literal),
      SameArity e (emitExpression env funcName r e buffer operation l).e := by
  induction r with
  | nil =>
    intro e buffer operation l
    simp only [emitExpression]
    exact emitExpressionBody_sameArity env _ (fun e _ => sameArity_refl e) e buffer funcName
      operation l none
  | node rop rl rr ih =>
    intro e buffer operation l
    simp only [emitExpression]
    exact emitExpressionBody_sameArity env _ (fun e b => ih e b rop none) e buffer funcName
      operation l (some (rop, rl))

theorem emitStatements_sameArity (env : Env) (name : String) (n : Nat) (body : List Block) :
    ∀ (i : Nat) (e : Emitter) (buf : Bytes),
      SameArity e (emitStatements env name n body i e buf).e := by
  induction body with
  | nil =>
    intro i e buf
    exact sameArity_refl e
  | cons s rest ih =>
    intro i e buf
    simp only [emitStatements]
    split
    · exact sameArity_refl e
    · rename_i operator left right _
      have h := emitExpression_sameArity env name right e buf operator left
      rcases hres : emitExpression env name right e buf operator left with ⟨st, e', b'⟩
      rw [hres] at h
      simp only at h
      cases st with
      | ok => exact sameArity_trans h (ih _ _ _)
      | error err => exact h
      | panic => exact h

theorem EmitFuncBody_sameArity (env : Env) (e : Emitter) (name : String) (body : List Block) :
    SameArity e (EmitFuncBody env e name body).2 := by
  simp only [EmitFuncBody]
  have h := emitStatements_sameArity env name body.length body 0 e [0x00]
  rcases hres : emitStatements env name body.length body 0 e [0x00] with ⟨st, e', b'⟩
  rw [hres] at h
  simp only at h
  cases st with
  | ok =>
    simp only
    split
    · exact h
    · exact h
  | error err => exact h
  | panic => exact h

/-! ## The registry entry of a declared name -/

theorem lastDeclared_append (l₁ l₂ : List (String × List Param)) (g : String)
    (acc : Option (List Param)) :
    lastDeclared (l₁ ++ l₂) g acc = lastDeclared l₂ g (lastDeclared l₁ g acc) := by
  induction l₁ generalizing acc with
  | nil => rfl
  | cons d rest ih =>
    simp only [List.cons_append, lastDeclared]
    exact ih _

theorem registeredArity_registerExtern (e : Emitter) (a : ExternFunc) (g : String) :
    registeredArity (registerExtern e a) g =
      if a.Name = g then some (a.Name, (registerParams a.Parameters 0 []).length)
      else registeredArity e g := by
  simp only [registeredArity, registerExtern, GoMap.get?_set]
  by_cases h : a.Name = g <;> simp [h]

theorem registeredArity_registerFun (e : Emitter) (fn : Fun) (g : String) :
    registeredArity (registerFun e fn) g =
      if fn.Name = g then some (fn.Name, (registerParams fn.Parameters 0 []).length)
      else registeredArity e g := by
  simp only [registeredArity, registerFun, GoMap.get?_set]
  by_cases h : fn.Name = g <;> simp [h]

theorem tracks_registerExtern (e : Emitter) (a : ExternFunc) (g : String)
    (acc : Option (List Param)) (h : Tracks e g acc) :
    Tracks (registerExtern e a) g (if a.Name = g then some a.Parameters else acc) := by
  simp only [Tracks] at h ⊢
  rw [registeredArity_registerExtern]
  by_cases hg : a.Name = g
  · subst hg
    simp
  · simp [hg, h]

theorem tracks_registerFun (e : Emitter) (fn : Fun) (g : String)
    (acc : Option (List Param)) (h : Tracks e g acc) :
    Tracks (registerFun e fn) g (if fn.Name = g then some fn.Parameters else acc) := by
  simp only [Tracks] at h ⊢
  rw [registeredArity_registerFun]
  by_cases hg : fn.Name = g
  · subst hg
    simp
  · simp [hg, h]

theorem tracks_of_arity_eq {e e' : Emitter} {g : String} {acc : Option (List Param)}
    (h : registeredArity e' g = registeredArity e g) (ht : Tracks e g acc) : Tracks e' g acc := by
  simp only [Tracks] at ht ⊢
  rw [h, ht]

theorem emitExternFunc_arity (env : Env) (moduleName : String) (e : Emitter) (a : ExternFunc)
    (g : String) :
    registeredArity (emitExternFunc env moduleName e a).2 g =
      registeredArity (registerExtern e a) g := by
  rw [emitExternFunc_eq]
  have h := EmitTypes_funcs env (registerExtern e a) a.Name
  rcases hres : EmitTypes env (registerExtern e a) a.Name with ⟨st, e'⟩
  rw [hres] at h
  simp only at h
  cases st with
  | ok => exact registeredArity_of_funcs_eq (by simpa [EmitImports] using h) g
  | error err => exact registeredArity_of_funcs_eq h g
  | panic => exact registeredArity_of_funcs_eq h g

theorem emitFun_arity (env : Env) (e : Emitter) (fn : Fun) (g : String) :
    registeredArity (emitFun env e fn).2 g = registeredArity (registerFun e fn) g := by
  rw [emitFun_eq]
  have h := EmitTypes_funcs env (registerFun e fn) fn.Name
  rcases hres : EmitTypes env (registerFun e fn) fn.Name with ⟨st, e'⟩
  rw [hres] at h
  simp only at h
  cases st with
  | ok =>
    simp only
    have hb := EmitFuncBody_sameArity env
      (EmitFuncs e' fn.Name (e'.externFuncsCount + e'.funcsCount)) fn.Name fn.Body
    rcases hres2 : EmitFuncBody env
        (EmitFuncs e' fn.Name (e'.externFuncsCount + e'.funcsCount)) fn.Name fn.Body
      with ⟨st₂, e₂⟩
    rw [hres2] at hb
    simp only at hb
    have hk : registeredArity e₂ g = registeredArity (registerFun e fn) g :=
      (registeredArity_of_sameArity hb g).trans
        (registeredArity_of_funcs_eq (by simpa [EmitFuncs] using h) g)
    cases st₂ with
    | ok => exact hk
    | error err => exact hk
    | panic => exact hk
  | error err => exact registeredArity_of_funcs_eq h g
  | panic => exact registeredArity_of_funcs_eq h g

theorem emitExternFuncs_tracks (env : Env) (moduleName : String) (l : List ExternFunc)
    (g : String) :
    ∀ (e e' : Emitter) (acc : Option (List Param)),
      emitExternFuncs env moduleName l e = (.ok, e') → Tracks e g acc →
        Tracks e' g (lastDeclared (externDecls l) g acc) := by
  induction l with
  | nil =>
    intro e e' acc h ht
    simp only [emitExternFuncs, Prod.mk.injEq, true_and] at h
    subst h
    exact ht
  | cons a rest ih =>
    intro e e' acc h ht
    simp only [emitExternFuncs] at h
    have hk := emitExternFunc_arity env moduleName e a g
    rcases hres : emitExternFunc env moduleName e a with ⟨st, e₁⟩
    rw [hres] at h hk
    cases st with
    | ok =>
      simp only at h hk
      exact ih e₁ e' _ h (tracks_of_arity_eq hk (tracks_registerExtern e a g acc ht))
    | error err => simp at h
    | panic => simp at h

theorem emitFuns_tracks (env : Env) (l : List Fun) (g : String) :
    ∀ (e e' : Emitter) (acc : Option (List Param)),
      emitFuns env l e = (.ok, e') → Tracks e g acc →
        Tracks e' g (lastDeclared (funDecls l) g acc) := by
  induction l with
  | nil =>
    intro e e' acc h ht
    simp only [emitFuns, Prod.mk.injEq, true_and] at h
    subst h
    exact ht
  | cons fn rest ih =>
    intro e e' acc h ht
    simp only [emitFuns] at h
    have hk := emitFun_arity env e fn g
    rcases hres : emitFun env e fn with ⟨st, e₁⟩
    rw [hres] at h hk
    cases st with
    | ok =>
      simp only at h hk
      exact ih e₁ e' _ h (tracks_of_arity_eq hk (tracks_registerFun e fn g acc ht))
    | error err => simp at h
    | panic => simp at h

theorem emitModules_tracks (env : Env) (ms : List Module) (g : String) :
    ∀ (e e' : Emitter) (acc : Option (List Param)),
      emitModules env ms e = (.ok, e') → Tracks e g acc →
        Tracks e' g (lastDeclared (ms.flatMap Module.decls) g acc) := by
  induction ms with
  | nil =>
    intro e e' acc h ht
    simp only [emitModules, Prod.mk.injEq, true_and] at h
    subst h
    exact ht
  | cons m rest ih =>
    intro e e' acc h ht
    simp only [emitModules] at h
    rcases hres : emitExternFuncs env m.Name m.ExternFuncs e with ⟨st, e₁⟩
    rw [hres] at h
    cases st with
    | ok =>
      simp only at h
      rcases hres2 : emitFuns env m.Funs e₁ with ⟨st₂, e₂⟩
      rw [hres2] at h
      cases st₂ with
      | ok =>
        simp only at h
        have t1 := emitExternFuncs_tracks env m.Name m.ExternFuncs g e e₁ acc hres ht
        have t2 := emitFuns_tracks env m.Funs g e₁ e₂ _ hres2 t1
        have t3 := ih e₂ e' _ h t2
        simp only [List.flatMap_cons, Module.decls, lastDeclared_append]
        exact t3
      | error err => simp at h
      | panic => simp at h
    | error err => simp at h
    | panic => simp at h

theorem tracks_of_reaches (env : Env) (ms₁ ms₂ : List Module) (m : Module) (fs₁ : List Fun)
    (fn : Fun) (b₁ : List Block) (ee : Emitter) (buf : Bytes) (g : String)
    (hreach : Reaches env ms₁ m ms₂ fs₁ fn b₁ ee buf) :
    Tracks ee g (lastDeclared (declsBefore ms₁ m fs₁ fn) g none) := by
  obtain ⟨ea, eb, ec, ed, h1, h2, h3, h4, h5⟩ := hreach
  have t0 : Tracks (EmitRuntime env (EmitMemory (NewEmitter ⟨ms₁ ++ m :: ms₂⟩))) g none := rfl
  have t1 := emitModules_tracks env ms₁ g _ ea none h1 t0
  have t2 := emitExternFuncs_tracks env m.Name m.ExternFuncs g ea eb _ h2 t1
  have t3 := emitFuns_tracks env fs₁ g eb ec _ h3 t2
  have t4 := tracks_registerFun ec fn g _ t3
  have k4 : registeredArity ed g = registeredArity (registerFun ec fn) g := by
    have := EmitTypes_funcs env (registerFun ec fn) fn.Name
    rw [h4] at this
    exact registeredArity_of_funcs_eq this g
  have k5 : registeredArity ee g = registeredArity ed g := by
    have := emitStatements_sameArity env fn.Name fn.Body.length b₁ 0
      (EmitFuncs ed fn.Name (ed.externFuncsCount + ed.funcsCount)) [0x00]
    rw [h5] at this
    exact (registeredArity_of_sameArity this g).trans (registeredArity_of_funcs_eq rfl g)
  have t5 := tracks_of_arity_eq (k5.trans k4) t4
  simp only [declsBefore, lastDeclared_append, funDecls, List.map_cons, List.map_nil, lastDeclared]
  exact t5

/-! ## C11: the arity check -/

/-- C11, as stated, fails: the extern declaration `g(x: num, x: num)` has two
parameters, which share one name and so one entry of the parameter table. The
call `g(1)` has one argument, a number different from the length of the
declared list, and `EmitAll` returns a buffer and no error; the call
`g(1, 2)` has as many arguments as the declaration has parameters, and the
arity check fails. -/
theorem C11_duplicate_parameter_counterexample :
    twiceX.Parameters.length = 2 ∧
      EmitAll wasmEnv (NewEmitter dupParamAst) =
        .buffer [0, 97, 115, 109, 1, 0, 0, 0, 1, 8, 2, 96, 1, 124, 0, 96, 0, 0, 2, 7, 1, 1, 109,
          1, 103, 0, 0, 3, 2, 1, 1, 5, 3, 1, 0, 1, 6, 6, 1, 127, 1, 65, 0, 11, 7, 5, 1, 1, 102,
          0, 1, 10, 7, 1, 5, 0, 16, 0, 26, 11] ∧
      EmitAll wasmEnv (NewEmitter dupParamAst2) =
        .error (.failedEmitFuncBody (.extraParams "f" "g")) := by
  decide

/-- C11 (amended): the arity check compares the number of arguments with the
number of entries of the callee's parameter table, which is the number of
distinct parameter names of its declaration. Let emission reach a call
statement `g(args)` in the body of `fn` (a definition of module `m`, after the
modules `ms₁`, the definitions `fs₁` of `m` and the statements `b₁` of the
body), and let `ps` be the parameter list of the last declaration of `g`
registered so far. If the number of distinct names in `ps` differs from the
number of arguments, `EmitAll` returns the arity error, wrapped as a
function-body failure; if the two numbers are equal, lowering the call does not
yield the arity error; and when the names in `ps` are pairwise distinct their
number is the length of `ps`. -/
theorem C11_arity_by_table (env : Env) (ms₁ ms₂ : List Module) (m : Module)
    (fs₁ fs₂ : List Fun) (fn : Fun) (b₁ b₂ : List Block) (g : String) (rop : Option String)
    (args : List Literal) (rr : Expression) (ee : Emitter) (buf : Bytes) (ps : List Param)
    (hm : m.Funs = fs₁ ++ fn :: fs₂)
    (hbody : fn.Body =
      b₁ ++ ⟨.node none (some (refLit g)) (.node rop (some (argsLit args)) rr)⟩ :: b₂)
    (hreach : Reaches env ms₁ m ms₂ fs₁ fn b₁ ee buf)
    (hdecl : lastDeclared (declsBefore ms₁ m fs₁ fn) g none = some ps) :
    (paramCount ps ≠ args.length →
      EmitAll env (NewEmitter ⟨ms₁ ++ m :: ms₂⟩) =
        .error (.failedEmitFuncBody (.extraParams fn.Name g))) ∧
    (paramCount ps = args.length →
      ∀ x y, (emitExpression env fn.Name (.node rop (some (argsLit args)) rr) ee buf none
        (some (refLit g))).status ≠ .error (.extraParams x y)) ∧
    ((ps.map (fun p => p.Name)).Nodup → paramCount ps = ps.length) := by
  have ht := tracks_of_reaches env ms₁ ms₂ m fs₁ fn b₁ ee buf g hreach
  rw [hdecl] at ht
  simp only [Tracks, Option.map, registeredArity, registerParams_length] at ht
  cases hget : ee.funcs.get? g with
  | none => simp [hget] at ht
  | some cf =>
    rw [hget] at ht
    simp only [Option.some.injEq, Prod.mk.injEq] at ht
    obtain ⟨hname, hlen⟩ := ht
    refine ⟨?_, ?_, paramCount_of_nodup ps⟩
    · intro hne
      apply EmitAll_error_of_reaches env ms₁ ms₂ m fs₁ fs₂ fn b₁ b₂ none (some (refLit g)) _
        ee buf _ hm hbody hreach
      rw [emitExpression_arity env fn.Name g rop args rr ee buf cf hget (by rw [hlen]; exact hne),
        hname]
    · intro heq x y hst
      rcases emitExpression_call_status env fn.Name g _ ee buf cf _ hget hst with h | h | h
      · obtain ⟨_, rl, hrl, hne⟩ := h
        simp only [Expression.view, RightView.left, Option.some.injEq] at hrl
        subst hrl
        exact hne (by rw [hlen, heq]; rfl)
      · obtain ⟨a, b, c, h⟩ := h
        exact EmitError.noConfusion h
      · obtain ⟨a, b, h⟩ := h
        exact EmitError.noConfusion h

/-- C11, witness: with `extern g(x: num)` in module `m`, the call `g(1, 2)` in
the body of `f` makes `EmitAll` return the arity error, and the call `g(1)`
does not fail the arity check. -/
theorem C11_arity_by_table_witness :
    EmitAll wasmEnv (NewEmitter ⟨[] ++ (⟨"m", [externG], [callerTwoArgs]⟩ : Module) :: []⟩) =
        .error (.failedEmitFuncBody (.extraParams "f" "g")) ∧
      ∃ ee buf, Reaches wasmEnv [] ⟨"m", [externG], [callerOneArg]⟩ [] [] callerOneArg [] ee buf ∧
        ∀ x y, (emitExpression wasmEnv "f" (.node none (some (argsLit [numLit f1])) .nil) ee buf
          none (some (refLit "g"))).status ≠ .error (.extraParams x y) := by
  have hr1 : Reaches wasmEnv [] ⟨"m", [externG], [callerTwoArgs]⟩ [] [] callerTwoArgs []
      (bodyStateAfterExterns wasmEnv
        ⟨[] ++ (⟨"m", [externG], [callerTwoArgs]⟩ : Module) :: []⟩
        ⟨"m", [externG], [callerTwoArgs]⟩ callerTwoArgs) [0x00] := by
    unfold Reaches
    exact ⟨_, _, _, _, rfl, rfl, rfl, rfl, rfl⟩
  have hr2 : Reaches wasmEnv [] ⟨"m", [externG], [callerOneArg]⟩ [] [] callerOneArg []
      (bodyStateAfterExterns wasmEnv
        ⟨[] ++ (⟨"m", [externG], [callerOneArg]⟩ : Module) :: []⟩
        ⟨"m", [externG], [callerOneArg]⟩ callerOneArg) [0x00] := by
    unfold Reaches
    exact ⟨_, _, _, _, rfl, rfl, rfl, rfl, rfl⟩
  refine ⟨(C11_arity_by_table wasmEnv [] [] ⟨"m", [externG], [callerTwoArgs]⟩ [] []
    callerTwoArgs [] [] "g" none [numLit f1, numLit f2] .nil _ _ [⟨"x", ⟨"num"⟩⟩]
    rfl rfl hr1 rfl).1 (by decide), _, _, hr2, ?_⟩
  exact (C11_arity_by_table wasmEnv [] [] ⟨"m", [externG], [callerOneArg]⟩ [] []
    callerOneArg [] [] "g" none [numLit f1] .nil _ _ [⟨"x", ⟨"num"⟩⟩]
    rfl rfl hr2 rfl).2.1 (by decide)

end Yum
